import Mathlib

/-!
# appdash MySQL store: span ingestion and trace-tree reconstruction

A shallow embedding of `store_mysql.go`.

* The two tables `appdash_traces` and `appdash_spans` are lists of rows in
  insertion order, each with its `AUTO_INCREMENT` counter.  Rows carry the Go
  field types (`int64` is `Int`, kept in range by `wrap64`).  A write coerces
  the value to its column: `cost_time int(11)` is a 32-bit `INT`,
  `trace_name` / `span_name varchar(30)` hold 30 characters and `content text`
  holds 65535 bytes.  A server that rejects a value it would have to cut is a
  failing storage call; when the call goes through, the value is stored cut to
  the column.  The keys are sixteen characters and fit their `varchar(32)`
  columns; the other integer columns are `BIGINT`.  The columns `created_at` /
  `updated_at` hold wall-clock readings that no operation reads back and are
  left out.
* A query without `ORDER BY` reads the rows in table order; `Get` loads the
  first match.
* Every storage call takes the error the driver injects for it (`none` when the
  call goes through), so each `err` assignment of the source is visible.
* `time.Parse`, `json.Marshal` and `json.Unmarshal` are library functions; the
  code is embedded over an arbitrary `Lib`.  `goLib` is a concrete instance:
  it evaluates the code on concrete inputs, and its JSON functions carry the
  round trip of annotations through the stored content.
-/

namespace Appdash

/-! ## Go values -/

/-- A byte of a Go `[]byte` or `string`. -/
abbrev Byte := Fin 256

/-- Two's-complement reduction of an integer to the range of Go's `int64`. -/
def wrap64 (x : Int) : Int := (x + 2 ^ 63) % 2 ^ 64 - 2 ^ 63

/-- The value a 32-bit MySQL `INT` column (`int(11)`) keeps of an integer. -/
def clampInt (x : Int) : Int := max (-2147483648) (min 2147483647 x)

/-- Whether a byte continues a UTF-8 character. -/
def isContinuation (b : Byte) : Bool := 128 ≤ b.val ∧ b.val < 192

/-- The first `n` characters of a UTF-8 text, as bytes. -/
def takeChars : Nat → List Byte → List Byte
  | _, [] => []
  | n, b :: bs =>
    if isContinuation b then b :: takeChars n bs
    else
      match n with
      | 0 => []
      | m + 1 => b :: takeChars m bs

/-- The value a `varchar(30)` column keeps of a name in UTF-8. -/
def nameColumn (s : List Byte) : List Byte := takeChars 30 s

/-- The longest run of leading characters that fits into `n` bytes of UTF-8. -/
def takeBytes : Nat → List Char → List Char
  | _, [] => []
  | n, c :: cs => if c.utf8Size ≤ n then c :: takeBytes (n - c.utf8Size) cs else []

/-- The number of bytes of a text in UTF-8. -/
def textBytes (s : String) : Nat := (s.data.map Char.utf8Size).sum

/-- The value a `text` column (65535 bytes) keeps of a text. -/
def textColumn (s : String) : String := ⟨takeBytes 65535 s.data⟩

/-- A Go `error` value as the code tells them apart: `sql.ErrNoRows`, any other
storage-layer error, and the error of `json.Unmarshal`. -/
inductive Err where
  | ErrNoRows
  | Storage
  | Json
deriving DecidableEq, Repr

/-- A `time.Time`, as the exact number of nanoseconds since the Unix epoch. -/
abbrev Time := Int

/-- The zero `time.Time` (January 1, year 1, 00:00:00 UTC). -/
def zeroTime : Time := -62135596800000000000

/-- `Time.UnixNano`: the nanosecond count as an `int64`. -/
def Time.UnixNano (t : Time) : Int := wrap64 t

/-! ## Identifiers -/

/-- Modelled from the spec: the type `ID` is declared outside `store_mysql.go`;
it is a 64-bit identifier, here a natural number below `2 ^ 64`. -/
abbrev ID := Nat

/-- Modelled from the spec: the type `SpanID` is declared outside
`store_mysql.go`; it is the triplet of Trace key, Span key and Parent key. -/
structure SpanID where
  Trace : ID
  Span : ID
  Parent : ID
deriving DecidableEq, Repr

/-- Modelled from the spec: the type `Annotation` is declared outside
`store_mysql.go`; it is a key string with a value of bytes. -/
structure Annotation where
  Key : String
  Value : List Byte
deriving DecidableEq, Repr

/-- The lower-case hexadecimal digit of a value below 16. -/
def hexChar (d : Nat) : Char :=
  match d with
  | 0 => '0' | 1 => '1' | 2 => '2' | 3 => '3'
  | 4 => '4' | 5 => '5' | 6 => '6' | 7 => '7'
  | 8 => '8' | 9 => '9' | 10 => 'a' | 11 => 'b'
  | 12 => 'c' | 13 => 'd' | 14 => 'e' | _ => 'f'

/-- The value of a hexadecimal digit, upper or lower case. -/
def hexVal (c : Char) : Option Nat :=
  if 48 ≤ c.toNat ∧ c.toNat ≤ 57 then some (c.toNat - 48)
  else if 97 ≤ c.toNat ∧ c.toNat ≤ 102 then some (c.toNat - 87)
  else if 65 ≤ c.toNat ∧ c.toNat ≤ 70 then some (c.toNat - 55)
  else none

/-- The `k` low hexadecimal digits of `n`, most significant first. -/
def hexDigits : Nat → Nat → List Char
  | 0, _ => []
  | k + 1, n => hexDigits k (n / 16) ++ [hexChar (n % 16)]

/-- Reads a run of hexadecimal digits onto an accumulator. -/
def parseHex : List Char → Nat → Option Nat
  | [], acc => some acc
  | c :: cs, acc =>
    match hexVal c with
    | none => none
    | some d => parseHex cs (acc * 16 + d)

/-- Modelled from the spec: the method `ID.String` is declared outside
`store_mysql.go`; it is the fixed-width, zero-padded string of a 64-bit
identifier, sixteen hexadecimal digits as in the sentinel
`"0000000000000000"`. -/
def ID.String (id : ID) : String := ⟨hexDigits 16 (id % 2 ^ 64)⟩

/-- Modelled from the spec: the function `ParseID` is declared outside
`store_mysql.go`; it reads the string form of an identifier back.  The code
drops its error, so a string that is no identifier (the empty string, a
string with another character, a value of more than 64 bits) reads as `0`. -/
def ParseID (s : String) : ID :=
  match parseHex s.data 0 with
  | some n => if n < 2 ^ 64 then n else 0
  | none => 0

/-- The key of "no parent": the constant `"0000000000000000"` of the source. -/
def sentinel : String := "0000000000000000"

/-! ## Library functions -/

/-- The library functions the store calls.
* `timeParse v` is `time.Parse("2006-01-02T15:04:05.999999999-07:00", string(v))`
  with the error dropped (the zero time on a failed parse);
* `Marshal as` is the text of `json.Marshal(as)`;
* `Unmarshal s` is `json.Unmarshal([]byte(s), &dst)` on an empty `dst`: what
  `dst` holds afterwards, and the error. -/
structure Lib where
  timeParse : List Byte → Time
  Marshal : List Annotation → String
  Unmarshal : String → List Annotation × Option Err

/-! ## Rows -/

/-- `TraceTable`, a row of `appdash_traces`. -/
structure TraceTable where
  Id : Int
  TraceKey : String
  TraceName : List Byte
  CostTime : Int
deriving DecidableEq, Repr

/-- `SpanTable`, a row of `appdash_spans`.  `Recv` and `Send` are the two
fields tagged `xorm:"-"`: they live in memory only. -/
structure SpanTable where
  Id : Int
  SpanKey : String
  SpanName : List Byte
  Content : String
  CostTime : Int
  ParentSpanKey : String
  ParentSpanID : Int
  TraceKey : String
  Recv : Time
  Send : Time
  ClientRecv : Int
  ClientSend : Int
  TraceId : Int
deriving DecidableEq, Repr

/-- The zero value of `TraceTable`. -/
def TraceTable.zero : TraceTable := ⟨0, "", [], 0⟩

/-- The zero value of `SpanTable`. -/
def SpanTable.zero : SpanTable :=
  ⟨0, "", [], "", 0, "", 0, "", zeroTime, zeroTime, 0, 0, 0⟩

/-- The expression `t.Recv.UnixNano() - t.Send.UnixNano()`, an `int64`. -/
def SpanTable.cost (t : SpanTable) : Int :=
  wrap64 (Time.UnixNano t.Recv - Time.UnixNano t.Send)

/-! ## The store -/

/-- The database behind `DBXorm`: both tables in insertion order and the next
`AUTO_INCREMENT` value of each. -/
structure DB where
  traces : List TraceTable
  spans : List SpanTable
  traceSeq : Int
  spanSeq : Int
deriving DecidableEq, Repr

/-- The database right after `Sync2` created the two empty tables. -/
def emptyDB : DB := ⟨[], [], 1, 1⟩

/-- `Where(cond).Get(&bean)` on `appdash_spans` with a zero-valued bean: the
first row that meets the condition is loaded into the bean (the in-memory
fields stay zero); with no such row the bean is untouched and the error is nil
(xorm reports the missing row through its boolean result, which the code
drops); a failing query leaves the bean untouched and returns its error. -/
def getSpan (fault : Option Err) (db : DB) (cond : SpanTable → Bool)
    (bean : SpanTable) : SpanTable × Option Err :=
  match fault with
  | some e => (bean, some e)
  | none =>
    match db.spans.find? cond with
    | some row => (row, none)
    | none => (bean, none)

/-- `Where("trace_key=?", key).Get(&trace)` on `appdash_traces`. -/
def getTrace (fault : Option Err) (db : DB) (key : String)
    (bean : TraceTable) : TraceTable × Option Err :=
  match fault with
  | some e => (bean, some e)
  | none =>
    match db.traces.find? (fun row => row.TraceKey = key) with
    | some row => (row, none)
    | none => (bean, none)

/-- `Insert(&trace)` with `trace.Id == 0`: the row, its name and cost coerced
to their columns, gets the next `AUTO_INCREMENT` value, which is written back
into the bean (the bean's other fields stay as they are in memory). -/
def insertTrace (fault : Option Err) (db : DB) (bean : TraceTable) :
    DB × TraceTable × Option Err :=
  match fault with
  | some e => (db, bean, some e)
  | none =>
    let row := { bean with
      Id := db.traceSeq
      TraceName := nameColumn bean.TraceName
      CostTime := clampInt bean.CostTime }
    ({ db with traces := db.traces ++ [row], traceSeq := db.traceSeq + 1 },
      { bean with Id := db.traceSeq }, none)

/-- The columns an xorm `Update(&trace)` writes into a row: the non-zero
fields of the bean, the auto-increment key apart, each coerced to its column.
A field that is zero in the bean (an empty string, the integer 0) is left out
of the `UPDATE`. -/
def TraceTable.assign (bean row : TraceTable) : TraceTable :=
  { row with
    TraceKey := if bean.TraceKey = "" then row.TraceKey else bean.TraceKey
    TraceName := if bean.TraceName = [] then row.TraceName else nameColumn bean.TraceName
    CostTime := if bean.CostTime = 0 then row.CostTime else clampInt bean.CostTime }

/-- `Where("trace_key=?", key).Update(&trace)`. -/
def updateTrace (fault : Option Err) (db : DB) (key : String)
    (bean : TraceTable) : DB × Option Err :=
  match fault with
  | some e => (db, some e)
  | none =>
    ({ db with
        traces := db.traces.map
          (fun row => if row.TraceKey = key then bean.assign row else row) },
      none)

/-- `Insert(&t)` on `appdash_spans` with `t.Id == 0` (every caller passes a
fresh record): the persisted columns, the name, content and cost coerced to
their columns, are stored under the next `AUTO_INCREMENT` value, which is
written back into the bean. -/
def insertSpanRow (fault : Option Err) (db : DB) (bean : SpanTable) :
    DB × SpanTable × Option Err :=
  match fault with
  | some e => (db, bean, some e)
  | none =>
    let row := { bean with
      Id := db.spanSeq
      Recv := zeroTime
      Send := zeroTime
      SpanName := nameColumn bean.SpanName
      Content := textColumn bean.Content
      CostTime := clampInt bean.CostTime }
    ({ db with spans := db.spans ++ [row], spanSeq := db.spanSeq + 1 },
      { bean with Id := db.spanSeq }, none)

/-- The statement run by `Exec` at the end of `insertSpan`:
`UPDATE appdash_spans AS t, (SELECT id FROM appdash_spans AS t2 WHERE
t2.span_key=? AND t2.parent_span_key='0000000000000000') AS t2
SET t.parent_span_id=t2.id WHERE t.parent_span_key=?`, both parameters `key`.
With an empty derived table the join is empty and no row changes. -/
def repairExec (fault : Option Err) (db : DB) (key : String) : DB × Option Err :=
  match fault with
  | some e => (db, some e)
  | none =>
    match (db.spans.filter
        (fun t2 => t2.SpanKey = key ∧ t2.ParentSpanKey = sentinel)).map (·.Id) with
    | [] => (db, none)
    | id :: _ =>
      ({ db with
          spans := db.spans.map
            (fun t => if t.ParentSpanKey = key then { t with ParentSpanID := id } else t) },
        none)

/-- `Where("parent_span_key=?", rootKey).OrderBy("client_send DESC").Limit(20, 0)
.Find(&spans)`; rows with equal `client_send` keep their table order. -/
def findSpans (db : DB) (rootKey : String) : List SpanTable :=
  ((db.spans.filter (fun r => r.ParentSpanKey = rootKey)).insertionSort
    (fun a b => a.ClientSend ≥ b.ClientSend)).take 20

/-! ## Ingestion -/

/-- The errors injected into the six storage calls of one `insertSpan`, in the
order of the source: the existence lookup, the parent lookup, the trace
lookup, the trace insert or update, the span insert, the repair statement. -/
structure Faults where
  existsGet : Option Err
  parentGet : Option Err
  traceGet : Option Err
  traceWrite : Option Err
  spanInsert : Option Err
  repair : Option Err
deriving DecidableEq, Repr

/-- No storage call fails. -/
def Faults.none : Faults := ⟨.none, .none, .none, .none, .none, .none⟩

/-- The trace upsert of `insertSpan` (the `if trace.Id == 0` statement), given
the looked-up `trace`. -/
def upsertTrace (fault : Option Err) (db : DB) (t : SpanTable) (trace : TraceTable) :
    DB × TraceTable × Option Err :=
  if trace.Id = 0 then
    insertTrace fault db
      { trace with TraceName := t.SpanName, TraceKey := t.TraceKey, CostTime := t.cost }
  else
    let trace := if t.ParentSpanKey = sentinel then { trace with TraceName := t.SpanName } else trace
    let trace := { trace with CostTime := wrap64 (trace.CostTime + t.cost) }
    let res := updateTrace fault db t.TraceKey trace
    (res.1, trace, res.2)

/-- The parent lookup of `insertSpan`: by the candidate's Parent key, or by
its own Span key when the Parent key is the sentinel. -/
def lookupParent (fault : Option Err) (db : DB) (t : SpanTable) : SpanTable × Option Err :=
  if t.ParentSpanKey = sentinel then
    getSpan fault db (fun row => row.SpanKey = t.SpanKey) SpanTable.zero
  else
    getSpan fault db (fun row => row.SpanKey = t.ParentSpanKey) SpanTable.zero

/-- The span insert of `insertSpan` (the `if parent.Id == 0` statement), given
the looked-up `parent` and the current values of `r` and `err`: the database,
`t`, `r` and `err` afterwards. -/
def storeSpan (fault : Option Err) (db : DB) (t parent r : SpanTable) (err : Option Err) :
    DB × SpanTable × SpanTable × Option Err :=
  if parent.Id = 0 then
    let res := insertSpanRow fault db { t with CostTime := t.cost }
    (res.1, res.2.1, res.2.1, res.2.2)
  else if parent.Id > 0 then
    let res := insertSpanRow fault db { t with ParentSpanID := parent.Id }
    (res.1, res.2.1, res.2.1, res.2.2)
  else (db, t, r, err)

/-- The function `insertSpan`: the database afterwards, and the two results
`r` and `err`. -/
def insertSpan (F : Faults) (db : DB) (t : SpanTable) : DB × SpanTable × Option Err :=
  let r := getSpan F.existsGet db (fun row => row.SpanKey = t.SpanKey) SpanTable.zero
  if r.1.Id > 0 then (db, r.1, r.2)
  else
    let parent := lookupParent F.parentGet db t
    let trace := getTrace F.traceGet db t.TraceKey TraceTable.zero
    let up := upsertTrace F.traceWrite db t trace.1
    let ins := storeSpan F.spanInsert up.1 { t with TraceId := up.2.1.Id } parent.1 r.1 up.2.2
    let rep := repairExec F.repair ins.1 ins.2.1.SpanKey
    (rep.1, ins.2.2.1, rep.2)

/-- One turn of the loop over the annotations in `Collect`. -/
def scanAnnot (L : Lib) (t : SpanTable) (v : Annotation) : SpanTable :=
  let t := if v.Key = "Name" then { t with SpanName := v.Value } else t
  let t := if v.Key = "ClientSend" then { t with Send := L.timeParse v.Value } else t
  let t := if v.Key = "ClientRecv" then { t with Recv := L.timeParse v.Value } else t
  let t := if v.Key = "Server.Recv" then { t with Send := L.timeParse v.Value } else t
  let t := if v.Key = "Server.Send" then { t with Recv := L.timeParse v.Value } else t
  t

/-- The record `t` that `Collect` hands to `insertSpan`.  The map `content`
that the loop also fills is not read afterwards: the stored content is
`json.Marshal(as)`. -/
def candidate (L : Lib) (id : SpanID) (as : List Annotation) : SpanTable :=
  let t := { SpanTable.zero with
    TraceKey := ID.String id.Trace
    SpanKey := ID.String id.Span
    ParentSpanKey := ID.String id.Parent }
  let t := as.foldl (scanAnnot L) t
  { t with
    ClientSend := Time.UnixNano t.Send
    ClientRecv := Time.UnixNano t.Recv
    Content := L.Marshal as }

/-- The method `MySQLStore.Collect`: the database afterwards and the returned
error.  The results of `insertSpan` are dropped and `nil` is returned. -/
def MySQLStore.Collect (L : Lib) (F : Faults) (db : DB) (id : SpanID)
    (as : List Annotation) : DB × Option Err :=
  ((insertSpan F db (candidate L id as)).1, none)

/-! ## Reconstruction -/

/-- Modelled from the spec: the type `Span` is declared outside
`store_mysql.go`; it is a `SpanID` with its annotations. -/
structure Span where
  ID : SpanID
  Annotations : List Annotation
deriving DecidableEq, Repr

/-- Modelled from the spec: the type `Trace` is declared outside
`store_mysql.go`; a trace tree node is a span with the ordered sequence of its
child nodes. -/
inductive Trace where
  | mk (Span : Span) (Sub : List Trace)

mutual
/-- Decidable equality of nodes. -/
def Trace.decEq : (a b : Trace) → Decidable (a = b)
  | .mk s1 l1, .mk s2 l2 =>
    if h : s1 = s2 then
      match Trace.decEqList l1 l2 with
      | isTrue h2 => isTrue (by rw [h, h2])
      | isFalse h2 => isFalse (by intro h3; cases h3; exact h2 rfl)
    else isFalse (by intro h3; cases h3; exact h rfl)
/-- Decidable equality of lists of nodes. -/
def Trace.decEqList : (a b : List Trace) → Decidable (a = b)
  | [], [] => isTrue rfl
  | [], _ :: _ => isFalse (by intro h; cases h)
  | _ :: _, [] => isFalse (by intro h; cases h)
  | a :: as, b :: bs =>
    match Trace.decEq a b with
    | isTrue h1 =>
      match Trace.decEqList as bs with
      | isTrue h2 => isTrue (by rw [h1, h2])
      | isFalse h2 => isFalse (by intro h3; cases h3; exact h2 rfl)
    | isFalse h1 => isFalse (by intro h3; cases h3; exact h1 rfl)
end

instance : DecidableEq Trace := Trace.decEq

/-- The field `Span` of a node. -/
def Trace.Span : Trace → Span
  | .mk s _ => s

/-- The field `Sub` of a node. -/
def Trace.Sub : Trace → List Trace
  | .mk _ l => l

/-- The `SpanID` read back from the three key columns of a row. -/
def spanIdOf (v : SpanTable) : SpanID :=
  ⟨ParseID v.TraceKey, ParseID v.SpanKey, ParseID v.ParentSpanKey⟩

/-- The node built for a fetched row, given its children. -/
def mkNode (L : Lib) (v : SpanTable) (child : List Trace) : Trace :=
  .mk ⟨spanIdOf v, (L.Unmarshal v.Content).1⟩ child

/-- The loop `for _, v := range spans` of `recursiveHandleSpan`, over the
results `parent` and `err`; `descend` is the recursive call, `none` when it
does not return. -/
def handleSpans (L : Lib) (descend : String → Option (List Trace × Option Err)) :
    List SpanTable → List Trace × Option Err → Option (List Trace × Option Err)
  | [], acc => some acc
  | v :: vs, acc =>
    match descend v.SpanKey with
    | none => none
    | some child => handleSpans L descend vs (acc.1 ++ [mkNode L v child.1], (L.Unmarshal v.Content).2)

/-- The function `recursiveHandleSpan`, with a bound on the depth of the
recursion: `none` when the bound is reached.  `ff key` is the error injected
into the `Find` for `key`. -/
def recursiveHandleSpan (L : Lib) (ff : String → Option Err) (db : DB) :
    Nat → String → Option (List Trace × Option Err)
  | 0, _ => none
  | fuel + 1, rootKey =>
    match ff rootKey with
    | some e => if e = Err.ErrNoRows then some ([], none) else some ([], some e)
    | none =>
      handleSpans L (recursiveHandleSpan L ff db fuel) (findSpans db rootKey) ([], none)

/-- The method `MySQLStore.Traces`. -/
def MySQLStore.Traces (L : Lib) (ff : String → Option Err) (db : DB) (fuel : Nat) :
    Option (List Trace × Option Err) :=
  recursiveHandleSpan L ff db fuel sentinel

/-- The value of `new(Trace)`. -/
def Trace.new : Trace := .mk ⟨⟨0, 0, 0⟩, []⟩ []

/-- The method `MySQLStore.Trace`; `fg` is the error injected into its `Get`. -/
def MySQLStore.Trace (L : Lib) (fg : Option Err) (ff : String → Option Err) (db : DB)
    (fuel : Nat) (id : ID) : Option (Trace × Option Err) :=
  let got := getSpan fg db
    (fun row => row.TraceKey = ID.String id ∧ row.ParentSpanKey = sentinel) SpanTable.zero
  match got.2 with
  | some e => if e = Err.ErrNoRows then some (Trace.new, none) else some (Trace.new, some e)
  | none =>
    match recursiveHandleSpan L ff db fuel got.1.SpanKey with
    | none => none
    | some subs =>
      some (.mk ⟨spanIdOf got.1, (L.Unmarshal got.1.Content).1⟩ subs.1,
        (L.Unmarshal got.1.Content).2)

/-! ## A concrete instance of the library functions

`goLib` evaluates the three library functions on concrete inputs.
`goTimeParse` reads the timestamps of the shape the layout describes with a
two-digit zone hour; `goMarshal` writes the text `json.Marshal` produces for
a slice of annotations (an empty slice as `null`, an empty value as `""`): a
key, a Unicode text, as a string literal with the escapes of `json.Marshal`
(the quotation mark, the backslash, control characters, `<`, `>`, `&`, U+2028
and U+2029), a value in standard base64; `goUnmarshal` reads such a text back
and reports any other text, the empty text and a text cut short among them,
as a syntax error that leaves the destination empty. -/

/-- The value of a decimal digit byte. -/
def digitVal (b : Byte) : Option Nat :=
  if 48 ≤ b.val ∧ b.val ≤ 57 then some (b.val - 48) else none

/-- Reads exactly two decimal digits. -/
def num2 : List Byte → Option (Nat × List Byte)
  | a :: b :: rest =>
    match digitVal a, digitVal b with
    | some x, some y => some (10 * x + y, rest)
    | _, _ => none
  | _ => none

/-- Reads one or two decimal digits (the hour field of the layout). -/
def num12 : List Byte → Option (Nat × List Byte)
  | [] => none
  | a :: rest =>
    match digitVal a with
    | none => none
    | some x =>
      match rest with
      | b :: rest2 =>
        match digitVal b with
        | some y => some (10 * x + y, rest2)
        | none => some (x, rest)
      | [] => some (x, rest)

/-- Reads one given byte. -/
def lit (c : Nat) : List Byte → Option (List Byte)
  | b :: rest => if b.val = c then some rest else none
  | [] => none

/-- Reads up to `k` decimal digits onto an accumulator, counting them. -/
def fracDigits : Nat → List Byte → Nat → Nat → Nat × Nat × List Byte
  | 0, bs, acc, n => (acc, n, bs)
  | _ + 1, [], acc, n => (acc, n, [])
  | k + 1, b :: rest, acc, n =>
    match digitVal b with
    | some d => fracDigits k rest (10 * acc + d) (n + 1)
    | none => (acc, n, b :: rest)

/-- Reads the optional fractional second: a period and one to nine digits,
scaled to nanoseconds. -/
def fracSecond (bs : List Byte) : Nat × List Byte :=
  match bs with
  | p :: d :: rest =>
    if p.val = 46 ∧ (digitVal d).isSome then
      let r := fracDigits 9 (d :: rest) 0 0
      (r.1 * 10 ^ (9 - r.2.1), r.2.2)
    else (0, bs)
  | _ => (0, bs)

/-- Whether a year of the proleptic Gregorian calendar is a leap year. -/
def isLeap (y : Nat) : Bool := y % 4 = 0 ∧ (y % 100 ≠ 0 ∨ y % 400 = 0)

/-- The number of days of a month. -/
def daysIn (m y : Nat) : Nat :=
  if m = 2 then (if isLeap y then 29 else 28)
  else if m = 4 ∨ m = 6 ∨ m = 9 ∨ m = 11 then 30 else 31

/-- The number of days from 1970-01-01 to a date of the proleptic Gregorian
calendar. -/
def daysFromCivil (y m d : Nat) : Int :=
  let y1 : Int := if m ≤ 2 then (y : Int) - 1 else y
  let era : Int := y1 / 400
  let yoe : Int := y1 - era * 400
  let mp : Int := if m > 2 then (m : Int) - 3 else (m : Int) + 9
  let doy : Int := (153 * mp + 2) / 5 + (d : Int) - 1
  let doe : Int := yoe * 365 + yoe / 4 - yoe / 100 + doy
  era * 146097 + doe - 719468

/-- The fields of a timestamp `YYYY-MM-DDTh:mm:ss[.f]±hh:mm`, as a time. -/
def parseStamp (bs : List Byte) : Option Time :=
  match num2 bs with
  | none => none
  | some (c, bs) =>
  match num2 bs with
  | none => none
  | some (yy, bs) =>
  match lit 45 bs with
  | none => none
  | some bs =>
  match num2 bs with
  | none => none
  | some (mo, bs) =>
  match lit 45 bs with
  | none => none
  | some bs =>
  match num2 bs with
  | none => none
  | some (dd, bs) =>
  match lit 84 bs with
  | none => none
  | some bs =>
  match num12 bs with
  | none => none
  | some (hh, bs) =>
  match lit 58 bs with
  | none => none
  | some bs =>
  match num2 bs with
  | none => none
  | some (mi, bs) =>
  match lit 58 bs with
  | none => none
  | some bs =>
  match num2 bs with
  | none => none
  | some (ss, bs) =>
  match fracSecond bs with
  | (ns, bs) =>
  match bs with
  | sg :: bs =>
    match num2 bs with
    | none => none
    | some (zh, bs) =>
    match lit 58 bs with
    | none => none
    | some bs =>
    match num2 bs with
    | none => none
    | some (zm, bs) =>
      let y := 100 * c + yy
      if bs = [] ∧ (sg.val = 43 ∨ sg.val = 45) ∧ 1 ≤ mo ∧ mo ≤ 12 ∧ 1 ≤ dd ∧ dd ≤ daysIn mo y
          ∧ hh < 24 ∧ mi < 60 ∧ ss < 60 then
        let off : Int := ((zh : Int) * 60 + zm) * 60
        let zone : Int := if sg.val = 45 then -off else off
        some (((daysFromCivil y mo dd * 86400 + (hh : Int) * 3600 + (mi : Int) * 60 + ss - zone)
          * 1000000000) + ns)
      else none
  | [] => none

/-- A stand-in for `time.Parse` with the layout of the source, the error
dropped. -/
def goTimeParse (bs : List Byte) : Time := (parseStamp bs).getD zeroTime

/-- The quotation mark. -/
def quoteChar : Char := Char.ofNat 34

/-- The backslash. -/
def backslashChar : Char := Char.ofNat 92

/-- The text `json.Marshal` writes for one character of a string. -/
def escapeChar (c : Char) : List Char :=
  if c = quoteChar then [backslashChar, quoteChar]
  else if c = backslashChar then [backslashChar, backslashChar]
  else if c.toNat = 10 then [backslashChar, 'n']
  else if c.toNat = 13 then [backslashChar, 'r']
  else if c.toNat = 9 then [backslashChar, 't']
  else if c.toNat < 32 ∨ c = '<' ∨ c = '>' ∨ c = '&' ∨ c.toNat = 8232 ∨ c.toNat = 8233 then
    [backslashChar, 'u'] ++ hexDigits 4 c.toNat
  else [c]

/-- The inside of a JSON string literal. -/
def escapeAll (s : List Char) : List Char := (s.map escapeChar).flatten

/-- The character of a six-bit value in the standard base64 alphabet. -/
def b64Char (i : Nat) : Char :=
  if i < 26 then Char.ofNat (65 + i)
  else if i < 52 then Char.ofNat (71 + i)
  else if i < 62 then Char.ofNat (i - 4)
  else if i = 62 then '+' else '/'

/-- The six-bit value of a character of the standard base64 alphabet. -/
def b64Val (c : Char) : Option Nat :=
  if 65 ≤ c.toNat ∧ c.toNat ≤ 90 then some (c.toNat - 65)
  else if 97 ≤ c.toNat ∧ c.toNat ≤ 122 then some (c.toNat - 71)
  else if 48 ≤ c.toNat ∧ c.toNat ≤ 57 then some (c.toNat + 4)
  else if c = '+' then some 62
  else if c = '/' then some 63
  else none

/-- Standard base64 with padding. -/
def b64Encode : List Byte → List Char
  | [] => []
  | [a] => [b64Char (a.val / 4), b64Char (a.val % 4 * 16), '=', '=']
  | [a, b] =>
    [b64Char (a.val / 4), b64Char (a.val % 4 * 16 + b.val / 16), b64Char (b.val % 16 * 4), '=']
  | a :: b :: c :: rest =>
    [b64Char (a.val / 4), b64Char (a.val % 4 * 16 + b.val / 16),
      b64Char (b.val % 16 * 4 + c.val / 64), b64Char (c.val % 64)] ++ b64Encode rest

/-- A byte from a natural number. -/
def toByte (n : Nat) : Byte := ⟨n % 256, Nat.mod_lt _ (by decide)⟩

/-- Decodes standard base64 with padding. -/
def b64Decode : List Char → Option (List Byte)
  | [] => some []
  | w :: x :: y :: z :: rest =>
    match b64Val w, b64Val x with
    | some p, some q =>
      if y = '=' ∧ z = '=' ∧ rest = [] then some [toByte (p * 4 + q / 16)]
      else
        match b64Val y with
        | none => none
        | some r =>
          if z = '=' ∧ rest = [] then some [toByte (p * 4 + q / 16), toByte (q % 16 * 16 + r / 4)]
          else
            match b64Val z, b64Decode rest with
            | some s, some more =>
              some (toByte (p * 4 + q / 16) :: toByte (q % 16 * 16 + r / 4)
                :: toByte (r % 4 * 64 + s) :: more)
            | _, _ => none
    | _, _ => none
  | _ => none

/-- The text that opens an annotation object, up to the opening quotation
mark of the key. -/
def keyOpen : List Char := "\x7b\"Key\":\"".data

/-- The text between the closing quotation mark of the key and the opening
quotation mark of the value. -/
def valueOpen : List Char := ",\"Value\":\"".data

/-- The closing brace. -/
def closeBrace : Char := Char.ofNat 125

/-- The text of one annotation: the key as a string literal, the value in
base64. -/
def jsonObject (a : Annotation) : List Char :=
  keyOpen ++ (escapeAll a.Key.data ++ quoteChar
    :: (valueOpen ++ (b64Encode a.Value ++ [quoteChar, closeBrace])))

/-- The texts of a non-empty run of annotations, separated by commas. -/
def jsonObjects : List Annotation → List Char
  | [] => []
  | [a] => jsonObject a
  | a :: rest => jsonObject a ++ [','] ++ jsonObjects rest

/-- A stand-in for `json.Marshal` on a slice of annotations. -/
def goMarshal (as : List Annotation) : String :=
  match as with
  | [] => "null"
  | _ => ⟨['['] ++ jsonObjects as ++ [']']⟩

/-- Reads the inside of a JSON string literal up to its closing quotation
mark, onto a reversed accumulator. -/
def readString : List Char → List Char → Option (List Char × List Char)
  | [], _ => none
  | c :: rest, acc =>
    if c = quoteChar then some (acc.reverse, rest)
    else if c = backslashChar then
      match rest with
      | [] => none
      | e :: rest2 =>
        if e = 'u' then
          match rest2 with
          | h1 :: h2 :: h3 :: h4 :: rest3 =>
            match parseHex [h1, h2, h3, h4] 0 with
            | some n => readString rest3 (Char.ofNat n :: acc)
            | none => none
          | _ => none
        else if e = quoteChar ∨ e = backslashChar ∨ e = '/' then readString rest2 (e :: acc)
        else if e = 'n' then readString rest2 (Char.ofNat 10 :: acc)
        else if e = 'r' then readString rest2 (Char.ofNat 13 :: acc)
        else if e = 't' then readString rest2 (Char.ofNat 9 :: acc)
        else if e = 'b' then readString rest2 (Char.ofNat 8 :: acc)
        else if e = 'f' then readString rest2 (Char.ofNat 12 :: acc)
        else none
    else if c.toNat < 32 then none
    else readString rest (c :: acc)

/-- Drops a given prefix. -/
def expect : List Char → List Char → Option (List Char)
  | [], cs => some cs
  | _ :: _, [] => none
  | p :: ps, c :: cs => if p = c then expect ps cs else none

/-- Reads one annotation object. -/
def readObject (cs : List Char) : Option ( Annotation × List Char) :=
  match expect keyOpen cs with
  | none => none
  | some cs =>
  match readString cs [] with
  | none => none
  | some (key, cs) =>
  match expect valueOpen cs with
  | none => none
  | some cs =>
  match readString cs [] with
  | none => none
  | some (val, cs) =>
  match b64Decode val, expect [closeBrace] cs with
  | some bytes, some cs => some (⟨⟨key⟩, bytes⟩, cs)
  | _, _ => none

/-- Reads the annotation objects of an array up to its closing bracket. -/
def readObjects : Nat → List Char → Option (List Annotation)
  | 0, _ => none
  | fuel + 1, cs =>
    match readObject cs with
    | none => none
    | some (a, rest) =>
      match rest with
      | [']'] => some [a]
      | ',' :: rest2 => (readObjects fuel rest2).map (a :: ·)
      | _ => none

/-- A stand-in for `json.Unmarshal` into an empty slice of annotations. -/
def goUnmarshal (s : String) : List Annotation × Option Err :=
  if s = "null" ∨ s = "[]" then ([], none)
  else
    match s.data with
    | '[' :: cs =>
      match readObjects cs.length cs with
      | some as => (as, none)
      | none => ([], some Err.Json)
    | _ => ([], some Err.Json)

/-- The concrete library instance. -/
def goLib : Lib := ⟨goTimeParse, goMarshal, goUnmarshal⟩

/-- The bytes of an ASCII text. -/
def bytes (s : String) : List Byte := s.data.map (fun c => toByte c.toNat)


/-! ## Runs and statements -/

/-- The database after a sequence of `Collect` calls, none of whose storage
calls fails. -/
def collectAll (L : Lib) (db : DB) (cs : List (SpanID × List Annotation)) : DB :=
  cs.foldl (fun db c => (MySQLStore.Collect L Faults.none db c.1 c.2).1) db

/-- No `Find` fails. -/
def noFindFault : String → Option Err := fun _ => none

/-- A fault pattern: only the repair statement fails. -/
def repairFails : Faults := { Faults.none with repair := some Err.Storage }

/-- A fault pattern: only the span insert fails. -/
def insertFails : Faults := { Faults.none with spanInsert := some Err.Storage }

/-- Timing annotations of a span sent at midnight of 2020-01-01 (UTC) and
received one second later. -/
def oneSecond : List Annotation :=
  [⟨"ClientSend", bytes "2020-01-01T00:00:00+00:00"⟩,
   ⟨"ClientRecv", bytes "2020-01-01T00:00:01+00:00"⟩]

/-- The statement of the repair sweep for a candidate with Span key `key` that
was stored under the id `newId`: the candidate's row is in the table and every
stored non-root span that declares `key` as its Parent key carries `newId` as
its `ParentSpanID`. -/
def RepairedAfter (db : DB) (key : String) (newId : Int) : Prop :=
  (∃ p ∈ db.spans, p.SpanKey = key ∧ p.Id = newId)
    ∧ ∀ s ∈ db.spans, s.ParentSpanKey = key → s.ParentSpanKey ≠ sentinel → s.ParentSpanID = newId

instance (db : DB) (key : String) (newId : Int) : Decidable (RepairedAfter db key newId) := by
  unfold RepairedAfter; infer_instance

mutual
/-- The node `n` was built from the row `v`: it carries the row's identifiers
and its child list was built from the rows fetched for the row's Span key. -/
def Trace.FetchedFrom (db : DB) : Trace → SpanTable → Prop
  | .mk s sub, v => s.ID = spanIdOf v ∧ FetchedList db sub (findSpans db v.SpanKey)
/-- The list of nodes was built, node by node and in order, from a list of
rows. -/
def FetchedList (db : DB) : List Trace → List SpanTable → Prop
  | [], [] => True
  | n :: ns, v :: vs => Trace.FetchedFrom db n v ∧ FetchedList db ns vs
  | [], _ :: _ => False
  | _ :: _, [] => False
end

/-- The rows a `Find` for `key` selects from, before ordering and limit. -/
def childRows (db : DB) (key : String) : List SpanTable :=
  db.spans.filter (fun r => r.ParentSpanKey = key)

/-- Timing annotations of a span sent `i` seconds (below 60) after midnight
of 2020-01-01 (UTC) and received half a second later. -/
def sentAt (i : Nat) : List Annotation :=
  [⟨"ClientSend", bytes "2020-01-01T00:00:" ++ [toByte (48 + i / 10), toByte (48 + i % 10)]
      ++ bytes "+00:00"⟩,
   ⟨"ClientRecv", bytes "2020-01-01T00:00:" ++ [toByte (48 + i / 10), toByte (48 + i % 10)]
      ++ bytes ".5+00:00"⟩]

/-- Calls that ingest the root spans `1, …, n` of trace 1, span `i + 1` sent
at second `i`. -/
def rootCalls (n : Nat) : List (SpanID × List Annotation) :=
  (List.range n).map (fun i => (⟨1, i + 1, 0⟩, sentAt i))

/-- A descent path of the reconstruction from `key`: each span is among the
rows fetched for the Span key of the one before (for `key`, the first). -/
def DescentPath (db : DB) : String → List SpanTable → Prop
  | _, [] => True
  | key, s :: rest => s ∈ findSpans db key ∧ DescentPath db s.SpanKey rest

/-- A path along declared Parent keys from `key`: each span is stored and
declares the Span key of the one before (for `key`, the first) as its Parent
key. -/
def ParentPath (db : DB) : String → List SpanTable → Prop
  | _, [] => True
  | key, s :: rest => (s ∈ db.spans ∧ s.ParentSpanKey = key) ∧ ParentPath db s.SpanKey rest

/-- The shape of the spans table the termination of the reconstruction rests
on: Span keys are unique, none is the sentinel, no Parent key is the empty
string, and ids are positive and below the table's counter. -/
structure StoreInv (db : DB) : Prop where
  keys : (db.spans.map (·.SpanKey)).Nodup
  ids : ∀ r ∈ db.spans, 0 < r.Id ∧ r.Id < db.spanSeq
  seq : 0 < db.spanSeq
  noSentinel : ∀ r ∈ db.spans, r.SpanKey ≠ sentinel
  parents : ∀ r ∈ db.spans, r.ParentSpanKey ≠ ""

/-- Calls that ingest a span whose Span key and Parent key are both the
sentinel, sent at the start of 2019 and received a second later, and then the
root spans `1, …, 20` sent in 2020. -/
def sentinelThenRoots : List (SpanID × List Annotation) :=
  (⟨1, 0, 0⟩, [⟨"ClientSend", bytes "2019-01-01T00:00:00+00:00"⟩,
    ⟨"ClientRecv", bytes "2019-01-01T00:00:01+00:00"⟩]) :: rootCalls 20

/-- The two annotations of the test `TestInsertSpan`. -/
def twoKV : List Annotation := [⟨"k", bytes "v"⟩, ⟨"k", bytes "v"⟩]

/-- A store holding the span with Span key 0 and Parent 1 of trace 1, into
which the root span 1 of trace 1 is then ingested with the annotations of the
test. -/
def cycleStore : DB :=
  (MySQLStore.Collect goLib Faults.none (collectAll goLib emptyDB [(⟨1, 0, 1⟩, [])])
    ⟨1, 1, 0⟩ twoKV).1

/-- The candidates of the calls that ingest a Span key for the first time, in
order, `seen` being the Span keys ingested before. -/
def firstIngestedFrom (L : Lib) : List String → List (SpanID × List Annotation) → List SpanTable
  | _, [] => []
  | seen, c :: cs =>
    if (candidate L c.1 c.2).SpanKey ∈ seen then firstIngestedFrom L seen cs
    else candidate L c.1 c.2
      :: firstIngestedFrom L (seen ++ [(candidate L c.1 c.2).SpanKey]) cs

/-- The spans a sequence of calls ingests: each distinct Span key once, at its
first call. -/
def firstIngested (L : Lib) (cs : List (SpanID × List Annotation)) : List SpanTable :=
  firstIngestedFrom L [] cs

/-- The sum of the costs `receive - send` of the given spans that fall under a
Trace key. -/
def costOf (spans : List SpanTable) (traceKey : String) : Int :=
  ((spans.filter (fun t => t.TraceKey = traceKey)).map (·.cost)).sum

/-- The sum of the costs of every span a sequence of calls ingests under a
Trace key. -/
def ingestedCost (L : Lib) (cs : List (SpanID × List Annotation)) (traceKey : String) : Int :=
  costOf (firstIngested L cs) traceKey

/-- Timing annotations of a span sent at midnight of 2020-01-01 (UTC) and
received three seconds later. -/
def threeSeconds : List Annotation :=
  [⟨"ClientSend", bytes "2020-01-01T00:00:00+00:00"⟩,
   ⟨"ClientRecv", bytes "2020-01-01T00:00:03+00:00"⟩]

/-- One annotation with an empty key and a value of 49152 zero bytes, 65536
characters in base64. -/
def longValue : List Annotation := [⟨"", List.replicate 49152 0⟩]

/-- A character that stands for itself inside a string literal. -/
abbrev Plain (c : Char) : Prop := c ≠ quoteChar ∧ c ≠ backslashChar ∧ ¬ c.toNat < 32

/-! ## Identifier strings -/

theorem hexVal_hexChar (d : Nat) (h : d < 16) : hexVal (hexChar d) = some d := by
  interval_cases d <;> rfl

theorem parseHex_append (l : List Char) (c : Char) (acc : Nat) :
    parseHex (l ++ [c]) acc
      = (parseHex l acc).bind (fun a => (hexVal c).map (fun d => a * 16 + d)) := by
  induction l generalizing acc with
  | nil => simp only [List.nil_append, parseHex]; cases hexVal c <;> rfl
  | cons x xs ih =>
    simp only [List.cons_append, parseHex]
    cases hexVal x with
    | none => rfl
    | some d => exact ih _

theorem parseHex_hexDigits (k n : Nat) : parseHex (hexDigits k n) 0 = some (n % 16 ^ k) := by
  induction k generalizing n with
  | zero => simp [hexDigits, parseHex, Nat.mod_one]
  | succ k ih =>
    rw [hexDigits, parseHex_append, ih, hexVal_hexChar _ (Nat.mod_lt _ (by decide))]
    simp only [Option.some_bind, Option.map_some']
    congr 1
    rw [pow_succ', Nat.mod_mul]
    ring

theorem ParseID_String (id : ID) : ParseID (ID.String id) = id % 2 ^ 64 := by
  have h : (16 : Nat) ^ 16 = 2 ^ 64 := by norm_num
  have hlt : id % 2 ^ 64 < 2 ^ 64 := Nat.mod_lt _ (by positivity)
  simp only [ParseID, ID.String, parseHex_hexDigits, h, Nat.mod_mod, hlt, if_true]

theorem String_inj (a b : ID) (ha : a < 2 ^ 64) (hb : b < 2 ^ 64)
    (h : ID.String a = ID.String b) : a = b := by
  have := congrArg ParseID h
  rwa [ParseID_String, ParseID_String, Nat.mod_eq_of_lt ha, Nat.mod_eq_of_lt hb] at this

theorem String_zero : ID.String 0 = sentinel := by decide

theorem String_ne_sentinel (a : ID) (ha : a < 2 ^ 64) (h0 : a ≠ 0) :
    ID.String a ≠ sentinel := by
  intro h
  exact h0 (String_inj a 0 ha (by norm_num) (h.trans String_zero.symm))

theorem hexDigits_length (k n : Nat) : (hexDigits k n).length = k := by
  induction k generalizing n with
  | zero => rfl
  | succ k ih => simp [hexDigits, ih]

theorem String_ne_empty (a : ID) : ID.String a ≠ "" := by
  intro h
  have := congrArg (fun s => s.data.length) h
  simp [ID.String, hexDigits_length] at this

/-! ## The candidate record -/

theorem scanAnnot_keys (L : Lib) (t : SpanTable) (v : Annotation) :
    (scanAnnot L t v).SpanKey = t.SpanKey ∧ (scanAnnot L t v).TraceKey = t.TraceKey
      ∧ (scanAnnot L t v).ParentSpanKey = t.ParentSpanKey
      ∧ (scanAnnot L t v).Id = t.Id := by
  unfold scanAnnot
  refine ⟨?_, ?_, ?_, ?_⟩ <;> (simp only []; split_ifs <;> rfl)

theorem foldl_scan_keys (L : Lib) (as : List Annotation) (t : SpanTable) :
    (as.foldl (scanAnnot L) t).SpanKey = t.SpanKey
      ∧ (as.foldl (scanAnnot L) t).TraceKey = t.TraceKey
      ∧ (as.foldl (scanAnnot L) t).ParentSpanKey = t.ParentSpanKey
      ∧ (as.foldl (scanAnnot L) t).Id = t.Id := by
  induction as generalizing t with
  | nil => exact ⟨rfl, rfl, rfl, rfl⟩
  | cons a as ih =>
    obtain ⟨h1, h2, h3, h4⟩ := ih (scanAnnot L t a)
    obtain ⟨k1, k2, k3, k4⟩ := scanAnnot_keys L t a
    exact ⟨h1.trans k1, h2.trans k2, h3.trans k3, h4.trans k4⟩

theorem candidate_SpanKey (L : Lib) (id : SpanID) (as : List Annotation) :
    (candidate L id as).SpanKey = ID.String id.Span :=
  (foldl_scan_keys L as _).1

theorem candidate_TraceKey (L : Lib) (id : SpanID) (as : List Annotation) :
    (candidate L id as).TraceKey = ID.String id.Trace :=
  (foldl_scan_keys L as _).2.1

theorem candidate_ParentSpanKey (L : Lib) (id : SpanID) (as : List Annotation) :
    (candidate L id as).ParentSpanKey = ID.String id.Parent :=
  (foldl_scan_keys L as _).2.2.1

theorem candidate_Content (L : Lib) (id : SpanID) (as : List Annotation) :
    (candidate L id as).Content = L.Marshal as := rfl

/-- A candidate whose Span key is stored with positive ids leaves the database
as it is. -/
theorem insertSpan_known (F : Faults) (db : DB) (t : SpanTable) (hF : F.existsGet = none)
    (hex : ∃ r ∈ db.spans, r.SpanKey = t.SpanKey)
    (hpos : ∀ r ∈ db.spans, r.SpanKey = t.SpanKey → 0 < r.Id) :
    (insertSpan F db t).1 = db := by
  unfold insertSpan getSpan
  rw [hF]
  cases hfind : db.spans.find? (fun row => decide (row.SpanKey = t.SpanKey)) with
  | none =>
    obtain ⟨r, hr, hk⟩ := hex
    have := List.find?_eq_none.mp hfind r hr
    simp [hk] at this
  | some row =>
    have hmem := List.mem_of_find?_eq_some hfind
    have hk := List.find?_some hfind
    simp only [decide_eq_true_eq] at hk
    have := hpos row hmem hk
    simp [this]

/-- C1: in every store state in which a span record with the Span key of `id`
exists, the records with that key having a positive storage id, `Collect` of
`id` with any annotations (its existence lookup going through) leaves the
store unchanged: the same span records, the same trace records with their
cost and name, and the same counters. -/
theorem collect_known_key_unchanged (L : Lib) (F : Faults) (db : DB) (id : SpanID)
    (as : List Annotation) (hF : F.existsGet = none)
    (hex : ∃ r ∈ db.spans, r.SpanKey = ID.String id.Span)
    (hpos : ∀ r ∈ db.spans, r.SpanKey = ID.String id.Span → 0 < r.Id) :
    MySQLStore.Collect L F db id as = (db, none) := by
  unfold MySQLStore.Collect
  rw [insertSpan_known F db (candidate L id as) hF (by rwa [candidate_SpanKey])
    (by rwa [candidate_SpanKey])]

/-- C1 (witness): the same SpanID and annotations ingested a second time. -/
theorem collect_known_key_unchanged_witness :
    Faults.none.existsGet = none
      ∧ (∃ r ∈ (collectAll goLib emptyDB [(⟨1, 1, 0⟩, oneSecond)]).spans,
          r.SpanKey = ID.String (SpanID.mk 1 1 0).Span)
      ∧ (∀ r ∈ (collectAll goLib emptyDB [(⟨1, 1, 0⟩, oneSecond)]).spans,
          r.SpanKey = ID.String (SpanID.mk 1 1 0).Span → 0 < r.Id)
      ∧ MySQLStore.Collect goLib Faults.none (collectAll goLib emptyDB [(⟨1, 1, 0⟩, oneSecond)])
          ⟨1, 1, 0⟩ oneSecond
        = (collectAll goLib emptyDB [(⟨1, 1, 0⟩, oneSecond)], none) :=
  ⟨rfl, by decide, by decide,
    collect_known_key_unchanged goLib Faults.none _ ⟨1, 1, 0⟩ oneSecond rfl
      (by decide) (by decide)⟩

/-! ## Ingestion errors -/

/-- C3 (the code at the failing input): `Collect` returns nil whatever the
storage calls return; with a failing repair statement `insertSpan` returns the
storage error and `Collect` returns nil, and with a failing span insert the span
is not stored and `Collect` returns nil. -/
theorem collect_drops_storage_error :
    (∀ (L : Lib) (F : Faults) (db : DB) (id : SpanID) (as : List Annotation),
        (MySQLStore.Collect L F db id as).2 = none)
      ∧ (insertSpan repairFails emptyDB (candidate goLib ⟨1, 1, 0⟩ [])).2.2 = some Err.Storage
      ∧ (MySQLStore.Collect goLib repairFails emptyDB ⟨1, 1, 0⟩ []).2 = none
      ∧ MySQLStore.Collect goLib insertFails emptyDB ⟨1, 1, 0⟩ []
          = (⟨[⟨1, "0000000000000001", [], 0⟩], [], 2, 1⟩, none) := by
  refine ⟨fun _ _ _ _ _ => rfl, ?_, ?_, ?_⟩ <;> decide

/-- C7 (the code at the failing input): on the empty store, where no span
matches, `Trace(1)` returns the empty tree together with the error of
`json.Unmarshal` on the empty content, not nil; the branch that maps a
missing row to a nil error is only taken when the `Get` itself returns
`sql.ErrNoRows`. -/
theorem trace_no_rows_returns_error :
    (∀ fuel : Nat, MySQLStore.Trace goLib none noFindFault emptyDB (fuel + 1) 1
        = some (Trace.new, some Err.Json))
      ∧ (∀ fuel : Nat, MySQLStore.Trace goLib (some Err.ErrNoRows) noFindFault emptyDB fuel 1
        = some (Trace.new, none)) := by
  exact ⟨fun _ => rfl, fun _ => rfl⟩

/-- C9 (the code at the failing input): after a root span and then its child
are ingested, each sent at the same instant and received one second later, the
root's row carries the cost of one second and the child's row, whose parent was
found at insertion time, carries the cost 0. -/
theorem child_span_cost_not_stored :
    (collectAll goLib emptyDB [(⟨1, 1, 0⟩, oneSecond), (⟨1, 2, 1⟩, oneSecond)]).spans.map
        (fun r => (r.SpanKey, r.ParentSpanID, r.CostTime, r.ClientRecv - r.ClientSend))
      = [("0000000000000001", 0, 1000000000, 1000000000),
         ("0000000000000002", 1, 0, 1000000000)] := by
  decide

/-- C4 (counterexample): span 3 with Parent 2 is ingested, then span 2 with
Parent 1 (a non-root candidate whose key is not yet stored), which is stored
under id 2: the stored span 3 still has the `ParentSpanID` 0. -/
theorem repair_skips_non_root_candidate :
    (∀ r ∈ (collectAll goLib emptyDB [(⟨1, 3, 2⟩, [])]).spans, r.SpanKey ≠ ID.String 2)
      ∧ (collectAll goLib emptyDB [(⟨1, 3, 2⟩, [])]).spanSeq = 2
      ∧ ¬ RepairedAfter (collectAll goLib emptyDB [(⟨1, 3, 2⟩, []), (⟨1, 2, 1⟩, [])])
          (ID.String 2) 2 := by
  decide

/-! ## The repair sweep -/

theorem upsertTrace_spans (f : Option Err) (db : DB) (t : SpanTable) (tr : TraceTable) :
    (upsertTrace f db t tr).1.spans = db.spans ∧ (upsertTrace f db t tr).1.spanSeq = db.spanSeq := by
  unfold upsertTrace insertTrace updateTrace
  split <;> cases f <;> exact ⟨rfl, rfl⟩

theorem getSpan_none_of_absent (db : DB) (cond : SpanTable → Bool)
    (h : ∀ r ∈ db.spans, cond r = false) :
    getSpan none db cond SpanTable.zero = (SpanTable.zero, none) := by
  unfold getSpan
  have : db.spans.find? cond = none := by
    rw [List.find?_eq_none]
    intro r hr
    simp [h r hr]
  simp [this]

theorem zero_Id : SpanTable.zero.Id = 0 := rfl

/-- The spans table after a root candidate with a new key went through
`insertSpan`: the old rows and the new row, each with its `ParentSpanID`
rewritten by the repair statement. -/
theorem insertSpan_root_spans (db : DB) (t : SpanTable)
    (hroot : t.ParentSpanKey = sentinel) (hnew : ∀ r ∈ db.spans, r.SpanKey ≠ t.SpanKey) :
    (insertSpan Faults.none db t).1.spans
      = (db.spans ++ [{ t with
            TraceId := (upsertTrace none db t (getTrace none db t.TraceKey TraceTable.zero).1).2.1.Id
            CostTime := clampInt t.cost, SpanName := nameColumn t.SpanName
            Content := textColumn t.Content, Id := db.spanSeq, Recv := zeroTime
            Send := zeroTime }]).map
          (fun (s : SpanTable) =>
            if s.ParentSpanKey = t.SpanKey then { s with ParentSpanID := db.spanSeq } else s) := by
  have habs : getSpan none db (fun row => decide (row.SpanKey = t.SpanKey)) SpanTable.zero
      = (SpanTable.zero, none) :=
    getSpan_none_of_absent db _ (fun r hr => by simpa using hnew r hr)
  have hfilter : db.spans.filter (fun t2 => decide (t2.SpanKey = t.SpanKey ∧ t2.ParentSpanKey = sentinel)) = [] := by
    rw [List.filter_eq_nil_iff]
    intro r hr
    simp [hnew r hr]
  obtain ⟨hs, hq⟩ := upsertTrace_spans none db t (getTrace none db t.TraceKey TraceTable.zero).1
  unfold insertSpan
  simp only [Faults.none, lookupParent, storeSpan, habs, hroot, if_true, zero_Id, gt_iff_lt,
    lt_self_iff_false, if_false, insertSpanRow, repairExec, hs, hq, List.filter_append, hfilter,
    List.nil_append]
  simp [List.filter, hroot, SpanTable.cost]


/-- C4 (amended): for every store state and every root candidate (its Parent
key is the sentinel) whose Span key is not yet stored, after `Collect` ingests
it the candidate is stored under the next id of the spans table, and every
stored non-root span whose declared Parent key equals the candidate's Span key
has that id as its `ParentSpanID`. -/
theorem repair_links_children_of_root (L : Lib) (db : DB) (id : SpanID) (as : List Annotation)
    (hroot : ID.String id.Parent = sentinel)
    (hnew : ∀ r ∈ db.spans, r.SpanKey ≠ ID.String id.Span) :
    RepairedAfter (MySQLStore.Collect L Faults.none db id as).1 (ID.String id.Span) db.spanSeq := by
  have hk := candidate_SpanKey L id as
  have hp := candidate_ParentSpanKey L id as
  have hsp := insertSpan_root_spans db (candidate L id as) (hp.trans hroot) (by rwa [hk])
  unfold RepairedAfter MySQLStore.Collect
  rw [hsp, hk]
  constructor
  · refine ⟨_, List.mem_map.mpr ⟨_, List.mem_append_right _ (List.mem_singleton.mpr rfl), rfl⟩, ?_, ?_⟩
    · simp only [hk]; split_ifs <;> rfl
    · simp only []; split_ifs <;> rfl
  · intro s hs hpar _
    obtain ⟨s0, _, rfl⟩ := List.mem_map.mp hs
    by_cases h0 : s0.ParentSpanKey = ID.String id.Span
    · simp [h0]
    · simp only [h0, if_false] at hpar

/-- C4 (witness): span 2 with Parent 1 is ingested before the root span 1; the
root is stored under id 2 and the row of span 2 then carries `ParentSpanID` 2. -/
theorem repair_links_children_of_root_witness :
    ID.String (SpanID.mk 1 1 0).Parent = sentinel
      ∧ (∀ r ∈ (collectAll goLib emptyDB [(⟨1, 2, 1⟩, [])]).spans, r.SpanKey ≠ ID.String 1)
      ∧ RepairedAfter
          (MySQLStore.Collect goLib Faults.none (collectAll goLib emptyDB [(⟨1, 2, 1⟩, [])])
            ⟨1, 1, 0⟩ []).1 (ID.String 1) 2 :=
  ⟨by decide, by decide,
    repair_links_children_of_root goLib (collectAll goLib emptyDB [(⟨1, 2, 1⟩, [])]) ⟨1, 1, 0⟩ []
      (by decide) (by decide)⟩

/-! ## Child lists -/

theorem findSpans_length (db : DB) (key : String) : (findSpans db key).length ≤ 20 := by
  unfold findSpans
  rw [List.length_take]
  exact Nat.min_le_left _ _

theorem sorted_childRows (db : DB) (key : String) :
    ((childRows db key).insertionSort (fun a b => a.ClientSend ≥ b.ClientSend)).Pairwise
      (fun a b => a.ClientSend ≥ b.ClientSend) := by
  haveI : IsTotal SpanTable (fun a b => a.ClientSend ≥ b.ClientSend) :=
    ⟨fun a b => le_total b.ClientSend a.ClientSend⟩
  haveI : IsTrans SpanTable (fun a b => a.ClientSend ≥ b.ClientSend) :=
    ⟨fun a b c hab hbc => le_trans hbc hab⟩
  exact List.sorted_insertionSort _ _

theorem findSpans_sorted (db : DB) (key : String) :
    (findSpans db key).Pairwise (fun a b => a.ClientSend ≥ b.ClientSend) :=
  (sorted_childRows db key).sublist (List.take_sublist _ _)

theorem findSpans_top (db : DB) (key : String) :
    ∃ rest, (findSpans db key ++ rest).Perm (childRows db key)
      ∧ (∀ a ∈ findSpans db key, ∀ b ∈ rest, b.ClientSend ≤ a.ClientSend)
      ∧ ((childRows db key).length ≤ 20 → rest = []) := by
  refine ⟨((childRows db key).insertionSort (fun a b => a.ClientSend ≥ b.ClientSend)).drop 20,
    ?_, ?_, ?_⟩
  · unfold findSpans
    rw [← childRows, List.take_append_drop]
    exact List.perm_insertionSort _ _
  · have h := sorted_childRows db key
    rw [← List.take_append_drop 20 ((childRows db key).insertionSort _), List.pairwise_append] at h
    exact fun a ha b hb => h.2.2 a ha b hb
  · intro hlen
    apply List.drop_eq_nil_of_le
    rwa [List.length_insertionSort]

theorem findSpans_mem (db : DB) (key : String) (v : SpanTable) (h : v ∈ findSpans db key) :
    v ∈ db.spans ∧ v.ParentSpanKey = key := by
  have h1 := List.mem_of_mem_take h
  have h2 := (List.perm_insertionSort _ _).subset h1
  simpa using List.mem_filter.mp h2

theorem handleSpans_fetched (L : Lib) (db : DB)
    (descend : String → Option (List Trace × Option Err))
    (hd : ∀ key nodes err, descend key = some (nodes, err) → FetchedList db nodes (findSpans db key))
    (vs : List SpanTable) (acc out : List Trace × Option Err)
    (h : handleSpans L descend vs acc = some out) :
    ∃ new, out.1 = acc.1 ++ new ∧ FetchedList db new vs := by
  induction vs generalizing acc with
  | nil =>
    simp only [handleSpans, Option.some.injEq] at h
    exact ⟨[], by simp [h], by simp [FetchedList]⟩
  | cons v vs ih =>
    simp only [handleSpans] at h
    cases hc : descend v.SpanKey with
    | none => simp [hc] at h
    | some child =>
      simp only [hc] at h
      obtain ⟨new, hout, hnew⟩ := ih _ h
      refine ⟨mkNode L v child.1 :: new, by simpa using hout, ?_⟩
      simp only [FetchedList, mkNode, Trace.FetchedFrom, true_and]
      exact ⟨hd _ _ child.2 (by rw [hc]), hnew⟩

theorem recursiveHandleSpan_fetched (L : Lib) (db : DB) (fuel : Nat) (key : String)
    (nodes : List Trace) (err : Option Err)
    (h : recursiveHandleSpan L noFindFault db fuel key = some (nodes, err)) :
    FetchedList db nodes (findSpans db key) := by
  induction fuel generalizing key nodes err with
  | zero => simp [recursiveHandleSpan] at h
  | succ fuel ih =>
    simp only [recursiveHandleSpan, noFindFault] at h
    obtain ⟨new, hout, hnew⟩ := handleSpans_fetched L db _ ih _ _ _ h
    simp only [List.nil_append] at hout
    rw [hout]
    exact hnew


theorem getSpan_cases (db : DB) (cond : SpanTable → Bool) :
    (getSpan none db cond SpanTable.zero = (SpanTable.zero, none)
        ∧ ∀ r ∈ db.spans, cond r = false)
      ∨ ∃ r ∈ db.spans, cond r = true ∧ getSpan none db cond SpanTable.zero = (r, none) := by
  unfold getSpan
  cases hf : db.spans.find? cond with
  | none =>
    left
    refine ⟨rfl, fun r hr => ?_⟩
    have := List.find?_eq_none.mp hf r hr
    simpa using this
  | some row =>
    right
    exact ⟨row, List.mem_of_find?_eq_some hf, List.find?_some hf, rfl⟩

theorem getSpan_none_err (db : DB) (cond : SpanTable → Bool) (bean : SpanTable) :
    (getSpan none db cond bean).2 = none := by
  unfold getSpan
  simp only []
  split <;> rfl

/-- C6: every list the reconstruction produces is built in order from the
rows `findSpans` fetches for the parent's Span key: the forest of `Traces` from
the rows fetched for the sentinel, the `Sub` list of the node of `Trace` from
the rows fetched for the Span key of the row that node was built from (the
root row that `Get` loaded, or the zero record when there is none), and,
through `FetchedList`, the `Sub` list of every node below from the rows
fetched for the Span key of that node's row.  Such a list of rows has at most
20 entries, is ordered by non-increasing `ClientSend`, and together with some
rest of rows, none of which has a greater `ClientSend` than a listed one,
makes up the stored spans whose Parent key is that key, the rest being empty
when these are at most 20. -/
theorem child_lists_ordered_and_bounded (L : Lib) (db : DB) :
    (∀ fuel nodes err, MySQLStore.Traces L noFindFault db fuel = some (nodes, err) →
        FetchedList db nodes (findSpans db sentinel))
      ∧ (∀ fuel id t err, MySQLStore.Trace L none noFindFault db fuel id = some (t, err) →
        ∃ v, (v = SpanTable.zero
            ∨ (v ∈ db.spans ∧ v.TraceKey = ID.String id ∧ v.ParentSpanKey = sentinel))
          ∧ Trace.FetchedFrom db t v)
      ∧ (∀ key, (findSpans db key).length ≤ 20
        ∧ (findSpans db key).Pairwise (fun a b => a.ClientSend ≥ b.ClientSend)
        ∧ ∃ rest, (findSpans db key ++ rest).Perm (childRows db key)
          ∧ (∀ a ∈ findSpans db key, ∀ b ∈ rest, b.ClientSend ≤ a.ClientSend)
          ∧ ((childRows db key).length ≤ 20 → rest = [])) := by
  refine ⟨fun fuel nodes err h => recursiveHandleSpan_fetched L db fuel _ nodes err h, ?_,
    fun key => ⟨findSpans_length db key, findSpans_sorted db key, findSpans_top db key⟩⟩
  intro fuel id t err h
  unfold MySQLStore.Trace at h
  simp only [getSpan_none_err] at h
  split at h
  · simp at h
  · rename_i subs hsubs
    simp only [Option.some.injEq, Prod.mk.injEq] at h
    refine ⟨(getSpan none db
      (fun row => decide (row.TraceKey = ID.String id ∧ row.ParentSpanKey = sentinel))
      SpanTable.zero).1, ?_, ?_⟩
    · rcases getSpan_cases db
        (fun row => decide (row.TraceKey = ID.String id ∧ row.ParentSpanKey = sentinel)) with
        ⟨hz, _⟩ | ⟨r, hr, hc, hg⟩
      · left; rw [hz]
      · right
        rw [hg]
        simp only [decide_eq_true_eq] at hc
        exact ⟨hr, hc.1, hc.2⟩
    · rw [← h.1]
      exact ⟨rfl, recursiveHandleSpan_fetched L db fuel _ subs.1 subs.2 hsubs⟩

set_option maxRecDepth 1000000 in
/-- C6 (witness): 21 root spans sent at seconds 0 to 20; `Traces` returns the
20 most recent ones, latest first, leaving out the span sent at second 0.  And
for a root span 1 with a child 2, `Trace(1)` returns a node built from a row
of the store, with the child list `[2]` built from the rows fetched for that
row's Span key. -/
theorem child_lists_ordered_and_bounded_witness :
    (∃ nodes err, MySQLStore.Traces goLib noFindFault (collectAll goLib emptyDB (rootCalls 21)) 2
        = some (nodes, err)
      ∧ nodes.map (fun n => n.Span.ID.Span) = (List.range 20).map (fun i => 21 - i)
      ∧ FetchedList (collectAll goLib emptyDB (rootCalls 21)) nodes
          (findSpans (collectAll goLib emptyDB (rootCalls 21)) sentinel))
    ∧ (∃ t err v, MySQLStore.Trace goLib none noFindFault
          (collectAll goLib emptyDB [(⟨1, 1, 0⟩, oneSecond), (⟨1, 2, 1⟩, oneSecond)]) 2 1
            = some (t, err)
        ∧ t.Span.ID = ⟨1, 1, 0⟩ ∧ t.Sub.map (fun n => n.Span.ID.Span) = [2]
        ∧ (v = SpanTable.zero
          ∨ (v ∈ (collectAll goLib emptyDB [(⟨1, 1, 0⟩, oneSecond), (⟨1, 2, 1⟩, oneSecond)]).spans
            ∧ v.TraceKey = ID.String 1 ∧ v.ParentSpanKey = sentinel))
        ∧ Trace.FetchedFrom
          (collectAll goLib emptyDB [(⟨1, 1, 0⟩, oneSecond), (⟨1, 2, 1⟩, oneSecond)]) t v) := by
  constructor
  · have h : (MySQLStore.Traces goLib noFindFault (collectAll goLib emptyDB (rootCalls 21)) 2).isSome
        ∧ ((MySQLStore.Traces goLib noFindFault (collectAll goLib emptyDB (rootCalls 21)) 2).map
            (fun r => r.1.map (fun n => n.Span.ID.Span)))
          = some ((List.range 20).map (fun i => 21 - i)) := by
      decide
    obtain ⟨h1, h2⟩ := h
    obtain ⟨⟨nodes, err⟩, hr⟩ := Option.isSome_iff_exists.mp h1
    refine ⟨nodes, err, hr, ?_, (child_lists_ordered_and_bounded goLib _).1 2 nodes err hr⟩
    rw [hr] at h2
    simpa using h2
  · have h : (MySQLStore.Trace goLib none noFindFault
          (collectAll goLib emptyDB [(⟨1, 1, 0⟩, oneSecond), (⟨1, 2, 1⟩, oneSecond)]) 2 1).isSome
        ∧ ((MySQLStore.Trace goLib none noFindFault
          (collectAll goLib emptyDB [(⟨1, 1, 0⟩, oneSecond), (⟨1, 2, 1⟩, oneSecond)]) 2 1).map
            (fun r => (r.1.Span.ID, r.1.Sub.map (fun n => n.Span.ID.Span))))
          = some (⟨1, 1, 0⟩, [2]) := by
      decide
    obtain ⟨h1, h2⟩ := h
    obtain ⟨⟨t, err⟩, hr⟩ := Option.isSome_iff_exists.mp h1
    obtain ⟨v, hv, hf⟩ := (child_lists_ordered_and_bounded goLib _).2.1 2 1 t err hr
    rw [hr] at h2
    simp only [Option.map_some', Option.some.injEq, Prod.mk.injEq] at h2
    exact ⟨t, err, v, hr, h2.1, h2.2, hv, hf⟩

/-! ## Descent paths and termination -/

theorem DescentPath.parentPath (db : DB) (key : String) (path : List SpanTable)
    (h : DescentPath db key path) : ParentPath db key path := by
  induction path generalizing key with
  | nil => trivial
  | cons s rest ih => exact ⟨findSpans_mem db key s h.1, ih _ h.2⟩

theorem ParentPath.mem (db : DB) (key : String) (path : List SpanTable)
    (h : ParentPath db key path) : ∀ s ∈ path, s ∈ db.spans := by
  induction path generalizing key with
  | nil => intro s hs; cases hs
  | cons x rest ih =>
    intro s hs
    rcases List.mem_cons.mp hs with rfl | hs
    · exact h.1.1
    · exact ih _ h.2 s hs

/-- On a path from `key`, the Parent key of a span is `key` or the Span key of
a span of the path. -/
theorem ParentPath.parent (db : DB) (key : String) (path : List SpanTable)
    (h : ParentPath db key path) :
    ∀ s ∈ path, s.ParentSpanKey = key ∨ s.ParentSpanKey ∈ path.map (·.SpanKey) := by
  induction path generalizing key with
  | nil => intro s hs; cases hs
  | cons x rest ih =>
    intro s hs
    rcases List.mem_cons.mp hs with rfl | hs
    · exact Or.inl h.1.2
    · rcases ih _ h.2 s hs with h1 | h1
      · exact Or.inr (by rw [h1]; simp)
      · exact Or.inr (List.mem_cons_of_mem _ h1)

/-- With unique Span keys, a path from a key that no span of the path carries
visits no span twice. -/
theorem ParentPath.nodup (db : DB) (hk : (db.spans.map (·.SpanKey)).Nodup)
    (key : String) (path : List SpanTable) (h : ParentPath db key path)
    (hkey : key ∉ path.map (·.SpanKey)) : (path.map (·.SpanKey)).Nodup := by
  induction path generalizing key with
  | nil => exact List.nodup_nil
  | cons s rest ih =>
    have hnot : s.SpanKey ∉ rest.map (·.SpanKey) := by
      intro hmem
      obtain ⟨x, hx, hxs⟩ := List.mem_map.mp hmem
      have hxdb := ParentPath.mem db _ _ h.2 x hx
      have hxeq : x = s := List.inj_on_of_nodup_map hk hxdb h.1.1 hxs
      rcases ParentPath.parent db _ _ h.2 x hx with h1 | h1
      · rw [hxeq, h.1.2] at h1
        exact hkey (by rw [h1]; simp)
      · rw [hxeq, h.1.2] at h1
        exact hkey (List.mem_cons_of_mem _ h1)
    rw [List.map_cons, List.nodup_cons]
    exact ⟨hnot, ih _ h.2 hnot⟩

theorem ParentPath.length_le (db : DB) (hk : (db.spans.map (·.SpanKey)).Nodup)
    (key : String) (path : List SpanTable) (h : ParentPath db key path)
    (hkey : key ∉ path.map (·.SpanKey)) : path.length ≤ db.spans.length := by
  have hn : path.Nodup := List.Nodup.of_map _ (ParentPath.nodup db hk key path h hkey)
  exact (hn.subperm (fun s hs => ParentPath.mem db key path h s hs)).length_le

theorem handleSpans_isSome (L : Lib) (descend : String → Option (List Trace × Option Err))
    (vs : List SpanTable) (h : ∀ v ∈ vs, (descend v.SpanKey).isSome)
    (acc : List Trace × Option Err) : (handleSpans L descend vs acc).isSome := by
  induction vs generalizing acc with
  | nil => rfl
  | cons v vs ih =>
    obtain ⟨child, hc⟩ := Option.isSome_iff_exists.mp (h v (List.mem_cons_self _ _))
    simp only [handleSpans, hc]
    exact ih (fun w hw => h w (List.mem_cons_of_mem _ hw)) _

/-- The recursion returns once its depth bound exceeds the length of every
descent path from the key. -/
theorem recursiveHandleSpan_isSome (L : Lib) (db : DB) (fuel : Nat) (key : String)
    (h : ∀ path, DescentPath db key path → path.length < fuel) :
    (recursiveHandleSpan L noFindFault db fuel key).isSome := by
  induction fuel generalizing key with
  | zero => exact absurd (h [] trivial) (by simp)
  | succ fuel ih =>
    simp only [recursiveHandleSpan, noFindFault]
    apply handleSpans_isSome
    intro v hv
    apply ih
    intro path hp
    have := h (v :: path) ⟨hv, hp⟩
    simpa using this

/-- The recursion does not return when the rows fetched for the sentinel
include a span whose own Span key is the sentinel. -/
theorem handleSpans_none (L : Lib) (descend : String → Option (List Trace × Option Err))
    (vs : List SpanTable) (s : SpanTable) (hs : s ∈ vs) (hd : descend s.SpanKey = none)
    (acc : List Trace × Option Err) : handleSpans L descend vs acc = none := by
  induction vs generalizing acc with
  | nil => cases hs
  | cons v vs ih =>
    simp only [handleSpans]
    cases hc : descend v.SpanKey with
    | none => rfl
    | some child =>
      rcases List.mem_cons.mp hs with rfl | hs
      · rw [hd] at hc; cases hc
      · exact ih hs _

theorem recursiveHandleSpan_sentinel_none (L : Lib) (db : DB) (s : SpanTable)
    (hs : s ∈ findSpans db sentinel) (hkey : s.SpanKey = sentinel) (fuel : Nat) :
    recursiveHandleSpan L noFindFault db fuel sentinel = none := by
  induction fuel with
  | zero => rfl
  | succ fuel ih =>
    simp only [recursiveHandleSpan, noFindFault]
    exact handleSpans_none L _ _ s hs (by rw [hkey]; exact ih) _

/-! ## The tables after an ingestion -/

theorem getSpan_Id (db : DB) (cond : SpanTable → Bool) (hids : ∀ r ∈ db.spans, 0 < r.Id) :
    (getSpan none db cond SpanTable.zero).1.Id = 0
      ∨ 0 < (getSpan none db cond SpanTable.zero).1.Id := by
  rcases getSpan_cases db cond with ⟨h, _⟩ | ⟨r, hr, _, h⟩
  · left; rw [h]; rfl
  · right; rw [h]; exact hids r hr

theorem getSpan_lookupParent (db : DB) (t : SpanTable) (hids : ∀ r ∈ db.spans, 0 < r.Id) :
    (lookupParent none db t).1.Id = 0 ∨ 0 < (lookupParent none db t).1.Id := by
  unfold lookupParent
  split <;> exact getSpan_Id db _ hids

theorem repairExec_spans (db : DB) (key : String) :
    ∃ g : SpanTable → SpanTable, (repairExec none db key).1.spans = db.spans.map g
      ∧ (repairExec none db key).1.traces = db.traces
      ∧ (repairExec none db key).1.spanSeq = db.spanSeq
      ∧ (repairExec none db key).1.traceSeq = db.traceSeq
      ∧ ∀ s, ∃ pid, g s = { s with ParentSpanID := pid } := by
  unfold repairExec
  simp only []
  split
  · exact ⟨id, by simp, rfl, rfl, rfl, fun s => ⟨s.ParentSpanID, rfl⟩⟩
  · rename_i pid _ _
    refine ⟨fun t => if t.ParentSpanKey = key then { t with ParentSpanID := pid } else t,
      rfl, rfl, rfl, rfl, fun s => ?_⟩
    by_cases h : s.ParentSpanKey = key
    · exact ⟨pid, by simp [h]⟩
    · exact ⟨s.ParentSpanID, by simp [h]⟩

/-- The database after a candidate with a new Span key went through
`insertSpan`, the parent lookup having loaded no negative id: the trace upsert
took place, one row with the candidate's columns was appended under the next
id, and the repair statement rewrote at most the `ParentSpanID` of rows. -/
theorem insertSpan_new_of (db : DB) (t : SpanTable)
    (hnew : ∀ r ∈ db.spans, r.SpanKey ≠ t.SpanKey)
    (hpid : (lookupParent none db t).1.Id = 0 ∨ 0 < (lookupParent none db t).1.Id) :
    ∃ (row : SpanTable) (g : SpanTable → SpanTable),
      (insertSpan Faults.none db t).1.spans = (db.spans ++ [row]).map g
      ∧ (insertSpan Faults.none db t).1.traces
          = (upsertTrace none db t (getTrace none db t.TraceKey TraceTable.zero).1).1.traces
      ∧ (insertSpan Faults.none db t).1.spanSeq = db.spanSeq + 1
      ∧ (insertSpan Faults.none db t).1.traceSeq
          = (upsertTrace none db t (getTrace none db t.TraceKey TraceTable.zero).1).1.traceSeq
      ∧ (row.SpanKey = t.SpanKey ∧ row.ParentSpanKey = t.ParentSpanKey ∧ row.TraceKey = t.TraceKey
        ∧ row.Id = db.spanSeq ∧ row.ClientSend = t.ClientSend ∧ row.ClientRecv = t.ClientRecv
        ∧ row.Content = textColumn t.Content)
      ∧ ∀ s, ∃ pid, g s = { s with ParentSpanID := pid } := by
  have habs : getSpan none db (fun row => decide (row.SpanKey = t.SpanKey)) SpanTable.zero
      = (SpanTable.zero, none) :=
    getSpan_none_of_absent db _ (fun r hr => by simpa using hnew r hr)
  obtain ⟨hs, hq⟩ := upsertTrace_spans none db t (getTrace none db t.TraceKey TraceTable.zero).1
  unfold insertSpan
  simp only [Faults.none, habs, zero_Id, gt_iff_lt, lt_self_iff_false, if_false]
  generalize lookupParent none db t = parent at hpid ⊢
  unfold storeSpan
  rcases hpid with h0 | hpos
  · simp only [h0, if_true, insertSpanRow]
    obtain ⟨g, h1, h2, h3, h4, h5⟩ := repairExec_spans
      { traces := (upsertTrace none db t (getTrace none db t.TraceKey TraceTable.zero).1).1.traces
        spans := db.spans ++ [{ t with
            TraceId := (upsertTrace none db t (getTrace none db t.TraceKey TraceTable.zero).1).2.1.Id
            CostTime := clampInt t.cost, SpanName := nameColumn t.SpanName
            Content := textColumn t.Content, Id := db.spanSeq, Recv := zeroTime
            Send := zeroTime }]
        traceSeq := (upsertTrace none db t (getTrace none db t.TraceKey TraceTable.zero).1).1.traceSeq
        spanSeq := db.spanSeq + 1 } t.SpanKey
    refine ⟨{ t with
        TraceId := (upsertTrace none db t (getTrace none db t.TraceKey TraceTable.zero).1).2.1.Id
        CostTime := clampInt t.cost, SpanName := nameColumn t.SpanName
        Content := textColumn t.Content, Id := db.spanSeq, Recv := zeroTime, Send := zeroTime },
      g, ?_, ?_, ?_, ?_, ⟨rfl, rfl, rfl, rfl, rfl, rfl, rfl⟩, h5⟩
    · simpa only [hs, hq, SpanTable.cost] using h1
    · simpa only [hs, hq, SpanTable.cost] using h2
    · simpa only [hs, hq, SpanTable.cost] using h3
    · simpa only [hs, hq, SpanTable.cost] using h4
  · have hne : parent.1.Id ≠ 0 := ne_of_gt hpos
    simp only [hne, hpos, if_true, if_false, insertSpanRow]
    obtain ⟨g, h1, h2, h3, h4, h5⟩ := repairExec_spans
      { traces := (upsertTrace none db t (getTrace none db t.TraceKey TraceTable.zero).1).1.traces
        spans := db.spans ++ [{ t with
            TraceId := (upsertTrace none db t (getTrace none db t.TraceKey TraceTable.zero).1).2.1.Id
            ParentSpanID := parent.1.Id, CostTime := clampInt t.CostTime
            SpanName := nameColumn t.SpanName, Content := textColumn t.Content
            Id := db.spanSeq, Recv := zeroTime, Send := zeroTime }]
        traceSeq := (upsertTrace none db t (getTrace none db t.TraceKey TraceTable.zero).1).1.traceSeq
        spanSeq := db.spanSeq + 1 } t.SpanKey
    refine ⟨{ t with
        TraceId := (upsertTrace none db t (getTrace none db t.TraceKey TraceTable.zero).1).2.1.Id
        ParentSpanID := parent.1.Id, CostTime := clampInt t.CostTime
        SpanName := nameColumn t.SpanName, Content := textColumn t.Content
        Id := db.spanSeq, Recv := zeroTime, Send := zeroTime },
      g, ?_, ?_, ?_, ?_, ⟨rfl, rfl, rfl, rfl, rfl, rfl, rfl⟩, h5⟩
    · simpa only [hs, hq] using h1
    · simpa only [hs, hq] using h2
    · simpa only [hs, hq] using h3
    · simpa only [hs, hq] using h4

/-- The same, every stored id being positive. -/
theorem insertSpan_new (db : DB) (t : SpanTable)
    (hnew : ∀ r ∈ db.spans, r.SpanKey ≠ t.SpanKey) (hids : ∀ r ∈ db.spans, 0 < r.Id) :
    ∃ (row : SpanTable) (g : SpanTable → SpanTable),
      (insertSpan Faults.none db t).1.spans = (db.spans ++ [row]).map g
      ∧ (insertSpan Faults.none db t).1.traces
          = (upsertTrace none db t (getTrace none db t.TraceKey TraceTable.zero).1).1.traces
      ∧ (insertSpan Faults.none db t).1.spanSeq = db.spanSeq + 1
      ∧ (insertSpan Faults.none db t).1.traceSeq
          = (upsertTrace none db t (getTrace none db t.TraceKey TraceTable.zero).1).1.traceSeq
      ∧ (row.SpanKey = t.SpanKey ∧ row.ParentSpanKey = t.ParentSpanKey ∧ row.TraceKey = t.TraceKey
        ∧ row.Id = db.spanSeq ∧ row.ClientSend = t.ClientSend ∧ row.ClientRecv = t.ClientRecv
        ∧ row.Content = textColumn t.Content)
      ∧ ∀ s, ∃ pid, g s = { s with ParentSpanID := pid } :=
  insertSpan_new_of db t hnew (getSpan_lookupParent db t hids)

/-- The same for a root candidate, whose parent lookup goes by its own key. -/
theorem insertSpan_new_root (db : DB) (t : SpanTable)
    (hnew : ∀ r ∈ db.spans, r.SpanKey ≠ t.SpanKey) (hroot : t.ParentSpanKey = sentinel) :
    ∃ (row : SpanTable) (g : SpanTable → SpanTable),
      (insertSpan Faults.none db t).1.spans = (db.spans ++ [row]).map g
      ∧ (insertSpan Faults.none db t).1.traces
          = (upsertTrace none db t (getTrace none db t.TraceKey TraceTable.zero).1).1.traces
      ∧ (insertSpan Faults.none db t).1.spanSeq = db.spanSeq + 1
      ∧ (insertSpan Faults.none db t).1.traceSeq
          = (upsertTrace none db t (getTrace none db t.TraceKey TraceTable.zero).1).1.traceSeq
      ∧ (row.SpanKey = t.SpanKey ∧ row.ParentSpanKey = t.ParentSpanKey ∧ row.TraceKey = t.TraceKey
        ∧ row.Id = db.spanSeq ∧ row.ClientSend = t.ClientSend ∧ row.ClientRecv = t.ClientRecv
        ∧ row.Content = textColumn t.Content)
      ∧ ∀ s, ∃ pid, g s = { s with ParentSpanID := pid } := by
  apply insertSpan_new_of db t hnew
  left
  unfold lookupParent
  rw [if_pos hroot, getSpan_none_of_absent db _ (fun r hr => by simpa using hnew r hr)]
  rfl

theorem storeInv_empty : StoreInv emptyDB :=
  { keys := List.nodup_nil
    ids := fun _ h => by cases h
    seq := by decide
    noSentinel := fun _ h => by cases h
    parents := fun _ h => by cases h }

theorem storeInv_insertSpan (db : DB) (t : SpanTable) (hinv : StoreInv db)
    (hkey : t.SpanKey ≠ sentinel) (hpar : t.ParentSpanKey ≠ "") :
    StoreInv (insertSpan Faults.none db t).1 := by
  by_cases hex : ∃ r ∈ db.spans, r.SpanKey = t.SpanKey
  · rw [insertSpan_known Faults.none db t rfl hex (fun r hr _ => (hinv.ids r hr).1)]
    exact hinv
  · have hnew : ∀ r ∈ db.spans, r.SpanKey ≠ t.SpanKey := fun r hr h => hex ⟨r, hr, h⟩
    obtain ⟨row, g, hsp, _, hseq, _, ⟨hrk, hrp, _, hrid, _, _, _⟩, hg⟩ :=
      insertSpan_new db t hnew (fun r hr => (hinv.ids r hr).1)
    have hgk : ∀ s, (g s).SpanKey = s.SpanKey ∧ (g s).Id = s.Id
        ∧ (g s).ParentSpanKey = s.ParentSpanKey := by
      intro s
      obtain ⟨pid, hp⟩ := hg s
      rw [hp]
      exact ⟨rfl, rfl, rfl⟩
    have hmem : ∀ r ∈ (insertSpan Faults.none db t).1.spans,
        ∃ s, (s ∈ db.spans ∨ s = row) ∧ r.SpanKey = s.SpanKey ∧ r.Id = s.Id
          ∧ r.ParentSpanKey = s.ParentSpanKey := by
      intro r hr
      rw [hsp] at hr
      obtain ⟨s, hs, rfl⟩ := List.mem_map.mp hr
      refine ⟨s, ?_, hgk s⟩
      simpa using hs
    refine ⟨?_, ?_, ?_, ?_, ?_⟩
    · rw [hsp, List.map_map]
      have : (fun s => s.SpanKey) ∘ g = fun s => s.SpanKey := funext fun s => (hgk s).1
      rw [this, List.map_append, List.map_singleton, hrk]
      refine List.Nodup.append hinv.keys (List.nodup_singleton _) ?_
      rw [List.disjoint_singleton]
      intro hm
      obtain ⟨r, hr, hk⟩ := List.mem_map.mp hm
      exact hnew r hr hk
    · intro r hr
      obtain ⟨s, hs, _, hid, _⟩ := hmem r hr
      rw [hid, hseq]
      rcases hs with hs | rfl
      · have := hinv.ids s hs
        exact ⟨this.1, by omega⟩
      · rw [hrid]
        exact ⟨hinv.seq, by omega⟩
    · rw [hseq]
      have := hinv.seq
      omega
    · intro r hr
      obtain ⟨s, hs, hk, _, _⟩ := hmem r hr
      rw [hk]
      rcases hs with hs | rfl
      · exact hinv.noSentinel s hs
      · rw [hrk]; exact hkey
    · intro r hr
      obtain ⟨s, hs, _, _, hp⟩ := hmem r hr
      rw [hp]
      rcases hs with hs | rfl
      · exact hinv.parents s hs
      · rw [hrp]; exact hpar

theorem storeInv_collect (L : Lib) (db : DB) (id : SpanID) (as : List Annotation)
    (hinv : StoreInv db) (hkey : ID.String id.Span ≠ sentinel) :
    StoreInv (MySQLStore.Collect L Faults.none db id as).1 := by
  unfold MySQLStore.Collect
  apply storeInv_insertSpan db _ hinv
  · rwa [candidate_SpanKey]
  · rw [candidate_ParentSpanKey]
    exact String_ne_empty _

theorem storeInv_collectAll (L : Lib) (cs : List (SpanID × List Annotation)) (db : DB)
    (hinv : StoreInv db) (hcs : ∀ c ∈ cs, ID.String c.1.Span ≠ sentinel) :
    StoreInv (collectAll L db cs) := by
  induction cs generalizing db with
  | nil => exact hinv
  | cons c cs ih =>
    unfold collectAll
    rw [List.foldl_cons]
    exact ih _ (storeInv_collect L db c.1 c.2 hinv (hcs c (List.mem_cons_self _ _)))
      (fun d hd => hcs d (List.mem_cons_of_mem _ hd))

theorem descentPath_sentinel_nodup (db : DB) (hk : (db.spans.map (·.SpanKey)).Nodup)
    (hs : ∀ r ∈ db.spans, r.SpanKey ≠ sentinel) (path : List SpanTable)
    (h : ParentPath db sentinel path) :
    (path.map (·.SpanKey)).Nodup ∧ path.length ≤ db.spans.length := by
  have hkey : sentinel ∉ path.map (·.SpanKey) := by
    intro hm
    obtain ⟨x, hx, hxs⟩ := List.mem_map.mp hm
    exact hs x (ParentPath.mem db _ _ h x hx) hxs
  exact ⟨ParentPath.nodup db hk _ _ h hkey, ParentPath.length_le db hk _ _ h hkey⟩

theorem returns_from_sentinel (L : Lib) (db : DB) (hk : (db.spans.map (·.SpanKey)).Nodup)
    (hs : ∀ r ∈ db.spans, r.SpanKey ≠ sentinel) (fuel : Nat) (hf : db.spans.length < fuel) :
    (recursiveHandleSpan L noFindFault db fuel sentinel).isSome := by
  apply recursiveHandleSpan_isSome
  intro path hp
  have := (descentPath_sentinel_nodup db hk hs path (hp.parentPath)).2
  omega

theorem returns_from_root (L : Lib) (db : DB) (hk : (db.spans.map (·.SpanKey)).Nodup)
    (hs : ∀ r ∈ db.spans, r.SpanKey ≠ sentinel) (root : SpanTable) (hr : root ∈ db.spans)
    (hp : root.ParentSpanKey = sentinel) (fuel : Nat) (hf : db.spans.length ≤ fuel) :
    (recursiveHandleSpan L noFindFault db fuel root.SpanKey).isSome := by
  apply recursiveHandleSpan_isSome
  intro path hpath
  have := (descentPath_sentinel_nodup db hk hs (root :: path) ⟨⟨hr, hp⟩, hpath.parentPath⟩).2
  simp only [List.length_cons] at this
  omega

theorem returns_from_empty_key (L : Lib) (db : DB) (hp : ∀ r ∈ db.spans, r.ParentSpanKey ≠ "")
    (fuel : Nat) (hf : 0 < fuel) : (recursiveHandleSpan L noFindFault db fuel "").isSome := by
  apply recursiveHandleSpan_isSome
  intro path hpath
  cases path with
  | nil => exact hf
  | cons s rest =>
    have := findSpans_mem db "" s hpath.1
    exact absurd this.2 (hp s this.1)

theorem trace_returns (L : Lib) (db : DB) (hinv : StoreInv db) (fuel : Nat)
    (hf : db.spans.length < fuel) (id : ID) :
    (MySQLStore.Trace L none noFindFault db fuel id).isSome := by
  unfold MySQLStore.Trace
  simp only [getSpan_none_err]
  have hsome : (recursiveHandleSpan L noFindFault db fuel
      (getSpan none db (fun row => decide (row.TraceKey = ID.String id ∧ row.ParentSpanKey = sentinel))
        SpanTable.zero).1.SpanKey).isSome := by
    rcases getSpan_cases db
      (fun row => decide (row.TraceKey = ID.String id ∧ row.ParentSpanKey = sentinel)) with
      ⟨h, _⟩ | ⟨r, hr, hc, h⟩
    · rw [h]
      exact returns_from_empty_key L db hinv.parents fuel (by omega)
    · rw [h]
      simp only [decide_eq_true_eq] at hc
      exact returns_from_root L db hinv.keys hinv.noSentinel r hr hc.2 fuel (by omega)
  obtain ⟨subs, hsubs⟩ := Option.isSome_iff_exists.mp hsome
  simp only [hsubs]
  rfl

/-- C10 (amended): in every store reached from the empty store by `Collect`
calls (no storage call failing) none of which has the sentinel as its Span
key, no descent path from the sentinel, and none below a root span, visits a
Span key twice, and `Traces()` and `Trace(id)` return as soon as the depth
bound exceeds the number of stored spans; and in any store in which a span
whose Span key is the sentinel is among the rows fetched for the sentinel,
`Traces()` never returns. -/
theorem descent_terminates (L : Lib) (cs : List (SpanID × List Annotation))
    (hcs : ∀ c ∈ cs, ID.String c.1.Span ≠ sentinel) :
    (∀ path, DescentPath (collectAll L emptyDB cs) sentinel path → (path.map (·.SpanKey)).Nodup)
      ∧ (∀ root ∈ (collectAll L emptyDB cs).spans, root.ParentSpanKey = sentinel →
          ∀ path, DescentPath (collectAll L emptyDB cs) root.SpanKey path →
            ((root :: path).map (·.SpanKey)).Nodup)
      ∧ (∀ fuel, (collectAll L emptyDB cs).spans.length < fuel →
          (MySQLStore.Traces L noFindFault (collectAll L emptyDB cs) fuel).isSome
            ∧ ∀ id, (MySQLStore.Trace L none noFindFault (collectAll L emptyDB cs) fuel id).isSome)
      ∧ (∀ (db : DB) (s : SpanTable), s ∈ findSpans db sentinel → s.SpanKey = sentinel →
          ∀ fuel, MySQLStore.Traces L noFindFault db fuel = none) := by
  have hinv := storeInv_collectAll L cs emptyDB storeInv_empty hcs
  refine ⟨fun path hp => ?_, fun root hr hp path hpath => ?_, fun fuel hf => ⟨?_, fun id => ?_⟩,
    fun db s hs hkey fuel => recursiveHandleSpan_sentinel_none L db s hs hkey fuel⟩
  · exact (descentPath_sentinel_nodup _ hinv.keys hinv.noSentinel path hp.parentPath).1
  · exact (descentPath_sentinel_nodup _ hinv.keys hinv.noSentinel (root :: path)
      ⟨⟨hr, hp⟩, hpath.parentPath⟩).1
  · exact returns_from_sentinel L _ hinv.keys hinv.noSentinel fuel hf
  · exact trace_returns L _ hinv fuel hf id

/-- C10 (witness): a root span and its child are ingested; `Traces()` returns
with depth bound 3. -/
theorem descent_terminates_witness :
    (∀ c ∈ [((⟨1, 1, 0⟩ : SpanID), ([] : List Annotation)), (⟨1, 2, 1⟩, [])],
        ID.String c.1.Span ≠ sentinel)
      ∧ (MySQLStore.Traces goLib noFindFault
          (collectAll goLib emptyDB [(⟨1, 1, 0⟩, []), (⟨1, 2, 1⟩, [])]) 3).isSome :=
  ⟨by decide,
    ((descent_terminates goLib [(⟨1, 1, 0⟩, []), (⟨1, 2, 1⟩, [])] (by decide)).2.2.1 3
      (by decide)).1⟩

set_option maxRecDepth 1000000 in
/-- C10 (counterexample): a span whose Span key and Parent key are both the
sentinel is ingested, sent in 2019, then twenty root spans sent in 2020.
The store contains the sentinel-keyed span, yet `Traces()` returns: the `Find`
for the sentinel fetches the twenty most recent rows, and the sentinel-keyed
span is not among them. -/
theorem sentinel_span_beyond_limit :
    (∃ s ∈ (collectAll goLib emptyDB sentinelThenRoots).spans,
        s.SpanKey = sentinel ∧ s.ParentSpanKey = sentinel)
      ∧ ((MySQLStore.Traces goLib noFindFault (collectAll goLib emptyDB sentinelThenRoots) 2).map
          (fun r => r.1.map (fun n => n.Span.ID.Span)))
        = some ((List.range 20).map (fun i => 20 - i)) := by
  decide

/-! ## Reading a trace back -/

/-- The spans table after two calls with different Span keys on the empty
store: one row per call, in order, with the keys and the content of the call. -/
theorem collect_two (L : Lib) (id1 id2 : SpanID) (as1 as2 : List Annotation)
    (hne : ID.String id1.Span ≠ ID.String id2.Span) :
    ∃ r1 r2, (collectAll L emptyDB [(id1, as1), (id2, as2)]).spans = [r1, r2]
      ∧ (r1.SpanKey = ID.String id1.Span ∧ r1.ParentSpanKey = ID.String id1.Parent
        ∧ r1.TraceKey = ID.String id1.Trace ∧ r1.Content = textColumn (L.Marshal as1))
      ∧ (r2.SpanKey = ID.String id2.Span ∧ r2.ParentSpanKey = ID.String id2.Parent
        ∧ r2.TraceKey = ID.String id2.Trace ∧ r2.Content = textColumn (L.Marshal as2)) := by
  obtain ⟨row1, g1, hsp1, _, hseq1, _, ⟨hk1, hp1, ht1, hid1, _, _, hc1⟩, hg1⟩ :=
    insertSpan_new emptyDB (candidate L id1 as1) (fun _ h => by cases h) (fun _ h => by cases h)
  have hsp1' : (insertSpan Faults.none emptyDB (candidate L id1 as1)).1.spans = [g1 row1] := by
    rw [hsp1]; rfl
  obtain ⟨pid1, hpid1⟩ := hg1 row1
  obtain ⟨row2, g2, hsp2, _, _, _, ⟨hk2, hp2, ht2, _, _, _, hc2⟩, hg2⟩ :=
    insertSpan_new (insertSpan Faults.none emptyDB (candidate L id1 as1)).1 (candidate L id2 as2)
      (by
        intro r hr
        rw [hsp1', List.mem_singleton] at hr
        rw [hr, hpid1, candidate_SpanKey]
        show row1.SpanKey ≠ _
        rw [hk1, candidate_SpanKey]
        exact hne)
      (by
        intro r hr
        rw [hsp1', List.mem_singleton] at hr
        rw [hr, hpid1]
        show 0 < row1.Id
        rw [hid1]
        decide)
  obtain ⟨pid2, hpid2⟩ := hg2 (g1 row1)
  obtain ⟨pid3, hpid3⟩ := hg2 row2
  refine ⟨g2 (g1 row1), g2 row2, ?_, ?_, ?_⟩
  · show (insertSpan Faults.none (insertSpan Faults.none emptyDB (candidate L id1 as1)).1
        (candidate L id2 as2)).1.spans = _
    rw [hsp2, hsp1']
    rfl
  · rw [hpid2, hpid1]
    refine ⟨?_, ?_, ?_, ?_⟩
    · show row1.SpanKey = _; rw [hk1, candidate_SpanKey]
    · show row1.ParentSpanKey = _; rw [hp1, candidate_ParentSpanKey]
    · show row1.TraceKey = _; rw [ht1, candidate_TraceKey]
    · show row1.Content = _; rw [hc1, candidate_Content]
  · rw [hpid3]
    refine ⟨?_, ?_, ?_, ?_⟩
    · show row2.SpanKey = _; rw [hk2, candidate_SpanKey]
    · show row2.ParentSpanKey = _; rw [hp2, candidate_ParentSpanKey]
    · show row2.TraceKey = _; rw [ht2, candidate_TraceKey]
    · show row2.Content = _; rw [hc2, candidate_Content]

/-- `Trace` on a store whose spans are a root `p` and its child `c`, in either
order. -/
theorem trace_two (L : Lib) (db : DB) (p c : SpanTable) (id : ID)
    (hsp : db.spans = [c, p] ∨ db.spans = [p, c])
    (hpt : p.TraceKey = ID.String id) (hpp : p.ParentSpanKey = sentinel)
    (hcp : c.ParentSpanKey = p.SpanKey) (hp0 : p.SpanKey ≠ sentinel)
    (hc0 : c.SpanKey ≠ sentinel) (hcne : c.SpanKey ≠ p.SpanKey) (fuel : Nat) :
    MySQLStore.Trace L none noFindFault db (fuel + 2) id
      = some (.mk ⟨spanIdOf p, (L.Unmarshal p.Content).1⟩ [mkNode L c []],
          (L.Unmarshal p.Content).2) := by
  have hcs : c.ParentSpanKey ≠ sentinel := by rw [hcp]; exact hp0
  have hps : p.ParentSpanKey ≠ p.SpanKey := by rw [hpp]; exact fun h => hp0 h.symm
  have hpc : p.ParentSpanKey ≠ c.SpanKey := by rw [hpp]; exact fun h => hc0 h.symm
  have hcc : c.ParentSpanKey ≠ c.SpanKey := by rw [hcp]; exact fun h => hcne h.symm
  have hget : getSpan none db
      (fun row => decide (row.TraceKey = ID.String id ∧ row.ParentSpanKey = sentinel))
      SpanTable.zero = (p, none) := by
    unfold getSpan
    rcases hsp with h | h <;> simp [h, List.find?, hpt, hpp, hcs]
  have hfp : findSpans db p.SpanKey = [c] := by
    unfold findSpans
    rcases hsp with h | h <;> simp [h, List.filter, hcp, hps]
  have hfc : findSpans db c.SpanKey = [] := by
    unfold findSpans
    rcases hsp with h | h <;> simp [h, List.filter, hpc, hcc]
  unfold MySQLStore.Trace
  simp only [hget, recursiveHandleSpan, noFindFault, hfp, hfc, handleSpans, List.nil_append]

theorem spanIdOf_eq (r : SpanTable) (id : SpanID)
    (hT : id.Trace < 2 ^ 64) (hS : id.Span < 2 ^ 64) (hP : id.Parent < 2 ^ 64)
    (h1 : r.TraceKey = ID.String id.Trace) (h2 : r.SpanKey = ID.String id.Span)
    (h3 : r.ParentSpanKey = ID.String id.Parent) : spanIdOf r = id := by
  unfold spanIdOf
  rw [h1, h2, h3, ParseID_String, ParseID_String, ParseID_String, Nat.mod_eq_of_lt hT,
    Nat.mod_eq_of_lt hS, Nat.mod_eq_of_lt hP]

/-- C8: for a root span `P` (Parent 0, Span non-zero) and a span `C` of the
same trace with Parent `P.Span` and a Span key different from `P.Span` and
from 0, starting from the empty store, `Collect(C)` followed by `Collect(P)`
and then `Trace(P.Trace)` returns, for every depth bound from 2 on, the tree
whose root is `P` and whose child list is exactly the childless node `C`, each
with the annotations read back from its stored content (the JSON text of its
annotations as the `text` column keeps it); `Collect(P)` followed by
`Collect(C)` yields the same tree. -/
theorem out_of_order_linkage (L : Lib) (P C : SpanID) (asP asC : List Annotation)
    (hPT : P.Trace < 2 ^ 64) (hPS : P.Span < 2 ^ 64) (hCS : C.Span < 2 ^ 64)
    (hP : P.Parent = 0) (hP0 : P.Span ≠ 0) (hT : C.Trace = P.Trace) (hCP : C.Parent = P.Span)
    (hC1 : C.Span ≠ P.Span) (hC0 : C.Span ≠ 0) (fuel : Nat) :
    MySQLStore.Trace L none noFindFault (collectAll L emptyDB [(C, asC), (P, asP)]) (fuel + 2)
        P.Trace
      = some (.mk ⟨P, (L.Unmarshal (textColumn (L.Marshal asP))).1⟩
            [.mk ⟨C, (L.Unmarshal (textColumn (L.Marshal asC))).1⟩ []],
          (L.Unmarshal (textColumn (L.Marshal asP))).2)
    ∧ MySQLStore.Trace L none noFindFault (collectAll L emptyDB [(P, asP), (C, asC)]) (fuel + 2)
        P.Trace
      = some (.mk ⟨P, (L.Unmarshal (textColumn (L.Marshal asP))).1⟩
            [.mk ⟨C, (L.Unmarshal (textColumn (L.Marshal asC))).1⟩ []],
          (L.Unmarshal (textColumn (L.Marshal asP))).2) := by
  have hkne : ID.String C.Span ≠ ID.String P.Span := fun h => hC1 (String_inj _ _ hCS hPS h)
  have hkP : ID.String P.Span ≠ sentinel := String_ne_sentinel _ hPS hP0
  have hkC : ID.String C.Span ≠ sentinel := String_ne_sentinel _ hCS hC0
  have hpar : ID.String P.Parent = sentinel := by rw [hP]; exact String_zero
  have key : ∀ (db : DB) (p c : SpanTable), (db.spans = [c, p] ∨ db.spans = [p, c]) →
      (p.SpanKey = ID.String P.Span ∧ p.ParentSpanKey = ID.String P.Parent
        ∧ p.TraceKey = ID.String P.Trace ∧ p.Content = textColumn (L.Marshal asP)) →
      (c.SpanKey = ID.String C.Span ∧ c.ParentSpanKey = ID.String C.Parent
        ∧ c.TraceKey = ID.String C.Trace ∧ c.Content = textColumn (L.Marshal asC)) →
      MySQLStore.Trace L none noFindFault db (fuel + 2) P.Trace
        = some (.mk ⟨P, (L.Unmarshal (textColumn (L.Marshal asP))).1⟩
            [.mk ⟨C, (L.Unmarshal (textColumn (L.Marshal asC))).1⟩ []],
          (L.Unmarshal (textColumn (L.Marshal asP))).2) := by
    intro db p c hsp ⟨hp1, hp2, hp3, hp4⟩ ⟨hc1, hc2, hc3, hc4⟩
    rw [trace_two L db p c P.Trace hsp hp3 (hp2.trans hpar) (by rw [hc2, hCP, hp1])
      (by rw [hp1]; exact hkP) (by rw [hc1]; exact hkC) (by rw [hc1, hp1]; exact hkne) fuel]
    have hidP : spanIdOf p = P :=
      spanIdOf_eq p P hPT hPS (by rw [hP]; norm_num) hp3 hp1 hp2
    have hidC : spanIdOf c = C :=
      spanIdOf_eq c C (by rw [hT]; exact hPT) hCS (by rw [hCP]; exact hPS) hc3 hc1 hc2
    simp only [mkNode, hidP, hidC, hp4, hc4]
  constructor
  · obtain ⟨r1, r2, hsp, h1, h2⟩ := collect_two L C P asC asP hkne
    exact key _ r2 r1 (Or.inl hsp) h2 h1
  · obtain ⟨r1, r2, hsp, h1, h2⟩ := collect_two L P C asP asC (Ne.symm hkne)
    exact key _ r1 r2 (Or.inr hsp) h1 h2

set_option maxRecDepth 1000000 in
/-- C8 (witness): the spans 1 (root) and 2 (child of 1) of trace 1, the
example of the specification: both orders give the root 1 with the single
child 2. -/
theorem out_of_order_linkage_witness :
    MySQLStore.Trace goLib none noFindFault
        (collectAll goLib emptyDB [(⟨1, 2, 1⟩, oneSecond), (⟨1, 1, 0⟩, oneSecond)]) 2 1
      = some (.mk ⟨⟨1, 1, 0⟩, oneSecond⟩ [.mk ⟨⟨1, 2, 1⟩, oneSecond⟩ []], none)
    ∧ MySQLStore.Trace goLib none noFindFault
        (collectAll goLib emptyDB [(⟨1, 1, 0⟩, oneSecond), (⟨1, 2, 1⟩, oneSecond)]) 2 1
      = some (.mk ⟨⟨1, 1, 0⟩, oneSecond⟩ [.mk ⟨⟨1, 2, 1⟩, oneSecond⟩ []], none) := by
  have hrt : goLib.Unmarshal (textColumn (goLib.Marshal oneSecond)) = (oneSecond, none) := by
    decide
  have h := out_of_order_linkage goLib ⟨1, 1, 0⟩ ⟨1, 2, 1⟩ oneSecond oneSecond (by norm_num)
    (by norm_num) (by norm_num) rfl (by decide) rfl rfl (by decide) (by decide) 0
  rw [hrt] at h
  exact h

/-- Two keys that are fetched for each other: the recursion from either does
not return. -/
theorem recursiveHandleSpan_cycle (L : Lib) (db : DB) (ka kb : String)
    (ha : ∃ a ∈ findSpans db kb, a.SpanKey = ka) (hb : ∃ b ∈ findSpans db ka, b.SpanKey = kb)
    (fuel : Nat) :
    recursiveHandleSpan L noFindFault db fuel ka = none
      ∧ recursiveHandleSpan L noFindFault db fuel kb = none := by
  induction fuel with
  | zero => exact ⟨rfl, rfl⟩
  | succ fuel ih =>
    obtain ⟨a, hamem, hak⟩ := ha
    obtain ⟨b, hbmem, hbk⟩ := hb
    simp only [recursiveHandleSpan, noFindFault]
    exact ⟨handleSpans_none L _ _ b hbmem (by rw [hbk]; exact ih.2) _,
      handleSpans_none L _ _ a hamem (by rw [hak]; exact ih.1) _⟩

set_option maxRecDepth 1000000 in
/-- C5 (counterexample): the store holds the span with Span key 0 and Parent 1
of trace 1: no span with Span key 1, no root span under trace 1.  After
`Collect` of the root span 1 of trace 1, the descent of `Trace(1)` goes from
span 1 to its child, the span with key 0, from there to the spans whose Parent
key is the sentinel, span 1 among them, and so on: `Trace(1)` returns for no
depth bound. -/
theorem trace_does_not_return_on_cycle :
    (∀ r ∈ (collectAll goLib emptyDB [(⟨1, 0, 1⟩, [])]).spans, r.SpanKey ≠ ID.String 1)
      ∧ (∀ r ∈ (collectAll goLib emptyDB [(⟨1, 0, 1⟩, [])]).spans,
          r.TraceKey = ID.String 1 → r.ParentSpanKey ≠ sentinel)
      ∧ ¬ ∃ fuel, (MySQLStore.Trace goLib none noFindFault cycleStore fuel 1).isSome := by
  refine ⟨by decide, by decide, ?_⟩
  rintro ⟨fuel, h⟩
  have hgk : (getSpan none cycleStore
      (fun row => decide (row.TraceKey = ID.String 1 ∧ row.ParentSpanKey = sentinel))
      SpanTable.zero).1.SpanKey = ID.String 1 := by decide
  have hc := (recursiveHandleSpan_cycle goLib cycleStore (ID.String 1) sentinel
    (by decide) (by decide) fuel).1
  unfold MySQLStore.Trace at h
  simp only [getSpan_none_err, hgk, hc] at h
  exact absurd h (by simp)

/-! ## The cost aggregate -/

set_option maxRecDepth 1000000 in
/-- A cost outside the 32-bit cost column: when the insert of a span of three
seconds goes through, the Trace record holds 2147483647, not 3000000000. -/
theorem trace_cost_cut_to_column :
    (collectAll goLib emptyDB [(⟨1, 1, 0⟩, threeSeconds)]).traces.map
        (fun tr => (tr.TraceKey, tr.CostTime,
          ingestedCost goLib [(⟨1, 1, 0⟩, threeSeconds)] tr.TraceKey))
      = [("0000000000000001", 2147483647, 3000000000)] := by
  decide

/-! ## The JSON text of annotations -/

theorem readString_cons (c : Char) (rest acc : List Char) :
    readString (c :: rest) acc =
      if c = quoteChar then some (acc.reverse, rest)
      else if c = backslashChar then
        match rest with
        | [] => none
        | e :: rest2 =>
          if e = 'u' then
            match rest2 with
            | h1 :: h2 :: h3 :: h4 :: rest3 =>
              match parseHex [h1, h2, h3, h4] 0 with
              | some n => readString rest3 (Char.ofNat n :: acc)
              | none => none
            | _ => none
          else if e = quoteChar ∨ e = backslashChar ∨ e = '/' then readString rest2 (e :: acc)
          else if e = 'n' then readString rest2 (Char.ofNat 10 :: acc)
          else if e = 'r' then readString rest2 (Char.ofNat 13 :: acc)
          else if e = 't' then readString rest2 (Char.ofNat 9 :: acc)
          else if e = 'b' then readString rest2 (Char.ofNat 8 :: acc)
          else if e = 'f' then readString rest2 (Char.ofNat 12 :: acc)
          else none
      else if c.toNat < 32 then none
      else readString rest (c :: acc) := by
  conv_lhs => rw [readString.eq_def]

theorem readString_plain (l : List Char) (hl : ∀ c ∈ l, Plain c) (rest acc : List Char) :
    readString (l ++ quoteChar :: rest) acc = some (acc.reverse ++ l, rest) := by
  induction l generalizing acc with
  | nil => simp [readString_cons]
  | cons c l ih =>
    obtain ⟨h1, h2, h3⟩ := hl c (List.mem_cons_self _ _)
    rw [List.cons_append, readString_cons, if_neg h1, if_neg h2, if_neg h3,
      ih (fun d hd => hl d (List.mem_cons_of_mem _ hd))]
    simp

theorem readString_escapeChar (c : Char) (tail acc : List Char) :
    readString (escapeChar c ++ tail) acc = readString tail (c :: acc) := by
  have q1 : quoteChar ≠ 'u' := by decide
  have b0 : backslashChar ≠ quoteChar := by decide
  have b1 : backslashChar ≠ 'u' := by decide
  have n1 : ('n' : Char) ≠ 'u' := by decide
  have n2 : ¬ (('n' : Char) = quoteChar ∨ ('n' : Char) = backslashChar ∨ ('n' : Char) = '/') := by
    decide
  have r1 : ('r' : Char) ≠ 'u' := by decide
  have r2 : ¬ (('r' : Char) = quoteChar ∨ ('r' : Char) = backslashChar ∨ ('r' : Char) = '/') := by
    decide
  have r3 : ('r' : Char) ≠ 'n' := by decide
  have t1 : ('t' : Char) ≠ 'u' := by decide
  have t2 : ¬ (('t' : Char) = quoteChar ∨ ('t' : Char) = backslashChar ∨ ('t' : Char) = '/') := by
    decide
  have t3 : ('t' : Char) ≠ 'n' := by decide
  have t4 : ('t' : Char) ≠ 'r' := by decide
  unfold escapeChar
  split_ifs with h1 h2 h3 h4 h5 h6
  · subst h1
    rw [List.cons_append, List.cons_append, List.nil_append, readString_cons, if_neg b0,
      if_pos rfl]
    show (if quoteChar = 'u' then _ else _) = _
    rw [if_neg q1, if_pos (Or.inl rfl)]
  · subst h2
    rw [List.cons_append, List.cons_append, List.nil_append, readString_cons, if_neg b0,
      if_pos rfl]
    show (if backslashChar = 'u' then _ else _) = _
    rw [if_neg b1, if_pos (Or.inr (Or.inl rfl))]
  · have hc : c = Char.ofNat 10 := by rw [← h3, Char.ofNat_toNat]
    rw [List.cons_append, List.cons_append, List.nil_append, readString_cons, if_neg b0,
      if_pos rfl]
    show (if ('n' : Char) = 'u' then _ else _) = _
    rw [if_neg n1, if_neg n2, if_pos rfl, hc]
  · have hc : c = Char.ofNat 13 := by rw [← h4, Char.ofNat_toNat]
    rw [List.cons_append, List.cons_append, List.nil_append, readString_cons, if_neg b0,
      if_pos rfl]
    show (if ('r' : Char) = 'u' then _ else _) = _
    rw [if_neg r1, if_neg r2, if_neg r3, if_pos rfl, hc]
  · have hc : c = Char.ofNat 9 := by rw [← h5, Char.ofNat_toNat]
    rw [List.cons_append, List.cons_append, List.nil_append, readString_cons, if_neg b0,
      if_pos rfl]
    show (if ('t' : Char) = 'u' then _ else _) = _
    rw [if_neg t1, if_neg t2, if_neg t3, if_neg t4, if_pos rfl, hc]
  · have hlt : c.toNat < 16 ^ 4 := by
      rcases h6 with h | h | h | h | h | h
      · omega
      · subst h; decide
      · subst h; decide
      · subst h; decide
      · omega
      · omega
    have hp := parseHex_hexDigits 4 c.toNat
    rw [Nat.mod_eq_of_lt hlt] at hp
    simp only [hexDigits, List.nil_append, List.cons_append] at hp ⊢
    rw [readString_cons, if_neg b0, if_pos rfl]
    show (if ('u' : Char) = 'u' then _ else _) = _
    rw [if_pos rfl]
    show (match parseHex _ 0 with
      | some n => readString tail (Char.ofNat n :: acc)
      | none => none) = _
    rw [hp]
    show readString tail (Char.ofNat c.toNat :: acc) = _
    rw [Char.ofNat_toNat]
  · rw [List.cons_append, List.nil_append, readString_cons, if_neg h1, if_neg h2]
    have : ¬ c.toNat < 32 := fun h => h6 (Or.inl h)
    rw [if_neg this]

theorem readString_escapeAll (s rest acc : List Char) :
    readString (escapeAll s ++ quoteChar :: rest) acc = some (acc.reverse ++ s, rest) := by
  induction s generalizing acc with
  | nil => simp [escapeAll, readString_cons]
  | cons c s ih =>
    have : escapeAll (c :: s) = escapeChar c ++ escapeAll s := by
      simp [escapeAll]
    rw [this, List.append_assoc, readString_escapeChar, ih]
    simp

theorem b64Val_b64Char (i : Nat) (h : i < 64) : b64Val (b64Char i) = some i := by
  interval_cases i <;> rfl

theorem b64Char_ne_pad (i : Nat) (h : i < 64) : b64Char i ≠ '=' := by
  interval_cases i <;> decide

theorem b64Char_plain (i : Nat) (h : i < 64) : Plain (b64Char i) := by
  interval_cases i <;> decide

theorem pad_plain : Plain '=' := by decide

theorem b64Encode_plain (bs : List Byte) : ∀ c ∈ b64Encode bs, Plain c := by
  induction bs using b64Encode.induct with
  | case1 => simp [b64Encode]
  | case2 a =>
    intro c hc
    simp only [b64Encode, List.mem_cons, List.mem_singleton, List.not_mem_nil, or_false] at hc
    rcases hc with rfl | rfl | rfl | rfl
    · exact b64Char_plain _ (by omega)
    · exact b64Char_plain _ (by omega)
    · exact pad_plain
    · exact pad_plain
  | case3 a b =>
    intro c hc
    simp only [b64Encode, List.mem_cons, List.mem_singleton, List.not_mem_nil, or_false] at hc
    rcases hc with rfl | rfl | rfl | rfl
    · exact b64Char_plain _ (by omega)
    · exact b64Char_plain _ (by omega)
    · exact b64Char_plain _ (by omega)
    · exact pad_plain
  | case4 a b c rest ih =>
    intro d hd
    simp only [b64Encode, List.cons_append, List.nil_append, List.mem_cons] at hd
    rcases hd with rfl | rfl | rfl | rfl | hd
    · exact b64Char_plain _ (by omega)
    · exact b64Char_plain _ (by omega)
    · exact b64Char_plain _ (by omega)
    · exact b64Char_plain _ (by omega)
    · exact ih d hd

theorem toByte_first (a b : Byte) :
    toByte (a.val / 4 * 4 + (a.val % 4 * 16 + b.val / 16) / 16) = a := by
  apply Fin.ext
  show (a.val / 4 * 4 + (a.val % 4 * 16 + b.val / 16) / 16) % 256 = a.val
  have := a.isLt
  have := b.isLt
  omega

theorem toByte_first_one (a : Byte) :
    toByte (a.val / 4 * 4 + (a.val % 4 * 16) / 16) = a := by
  apply Fin.ext
  show (a.val / 4 * 4 + (a.val % 4 * 16) / 16) % 256 = a.val
  have := a.isLt
  omega

theorem toByte_second (a b c : Byte) :
    toByte ((a.val % 4 * 16 + b.val / 16) % 16 * 16 + (b.val % 16 * 4 + c.val / 64) / 4) = b := by
  apply Fin.ext
  show ((a.val % 4 * 16 + b.val / 16) % 16 * 16 + (b.val % 16 * 4 + c.val / 64) / 4) % 256
    = b.val
  have := a.isLt
  have := b.isLt
  have := c.isLt
  omega

theorem toByte_second_two (a b : Byte) :
    toByte ((a.val % 4 * 16 + b.val / 16) % 16 * 16 + (b.val % 16 * 4) / 4) = b := by
  apply Fin.ext
  show ((a.val % 4 * 16 + b.val / 16) % 16 * 16 + (b.val % 16 * 4) / 4) % 256 = b.val
  have := a.isLt
  have := b.isLt
  omega

theorem toByte_third (b c : Byte) :
    toByte ((b.val % 16 * 4 + c.val / 64) % 4 * 64 + c.val % 64) = c := by
  apply Fin.ext
  show ((b.val % 16 * 4 + c.val / 64) % 4 * 64 + c.val % 64) % 256 = c.val
  have := b.isLt
  have := c.isLt
  omega

theorem b64Decode_b64Encode (bs : List Byte) : b64Decode (b64Encode bs) = some bs := by
  induction bs using b64Encode.induct with
  | case1 => rfl
  | case2 a =>
    have ha := a.isLt
    simp only [b64Encode, b64Decode, b64Val_b64Char (a.val / 4) (by omega),
      b64Val_b64Char (a.val % 4 * 16) (by omega), and_self, if_true, toByte_first_one]
  | case3 a b =>
    have ha := a.isLt
    have hb := b.isLt
    have hy : b64Char (b.val % 16 * 4) ≠ '=' := b64Char_ne_pad _ (by omega)
    simp only [b64Encode, b64Decode, b64Val_b64Char (a.val / 4) (by omega),
      b64Val_b64Char (a.val % 4 * 16 + b.val / 16) (by omega),
      b64Val_b64Char (b.val % 16 * 4) (by omega), hy, false_and, if_false, and_self, if_true,
      toByte_first, toByte_second_two]
  | case4 a b c rest ih =>
    have ha := a.isLt
    have hb := b.isLt
    have hc := c.isLt
    have hy : b64Char (b.val % 16 * 4 + c.val / 64) ≠ '=' := b64Char_ne_pad _ (by omega)
    have hz : b64Char (c.val % 64) ≠ '=' := b64Char_ne_pad _ (by omega)
    simp only [b64Encode, List.cons_append, List.nil_append, b64Decode,
      b64Val_b64Char (a.val / 4) (by omega),
      b64Val_b64Char (a.val % 4 * 16 + b.val / 16) (by omega),
      b64Val_b64Char (b.val % 16 * 4 + c.val / 64) (by omega),
      b64Val_b64Char (c.val % 64) (by omega), hy, hz, false_and, if_false, ih,
      toByte_first, toByte_second, toByte_third, List.append_eq]

theorem expect_append (p cs : List Char) : expect p (p ++ cs) = some cs := by
  induction p with
  | nil => cases cs <;> rfl
  | cons c p ih => simp [expect, ih]

theorem readObject_jsonObject (a : Annotation) (rest : List Char) :
    readObject (jsonObject a ++ rest) = some (a, rest) := by
  obtain ⟨⟨key⟩, val⟩ := a
  unfold readObject jsonObject
  rw [List.append_assoc, expect_append]
  simp only []
  rw [List.append_assoc, List.cons_append, readString_escapeAll]
  simp only [List.reverse_nil, List.nil_append]
  rw [List.append_assoc, expect_append]
  simp only []
  rw [List.append_assoc, List.cons_append, readString_plain _ (b64Encode_plain _)]
  simp only [List.reverse_nil, List.nil_append, b64Decode_b64Encode, List.cons_append,
    expect, if_true, List.append_eq]

theorem jsonObject_length (a : Annotation) : 1 ≤ (jsonObject a).length := by
  unfold jsonObject
  rw [List.length_append]
  have : keyOpen.length = 8 := rfl
  omega

theorem jsonObjects_length (as : List Annotation) : as.length ≤ (jsonObjects as).length := by
  induction as using jsonObjects.induct with
  | case1 => simp
  | case2 a => simpa [jsonObjects] using jsonObject_length a
  | case3 a rest hne ih =>
    rw [jsonObjects]
    · simp only [List.length_cons, List.length_append, List.length_nil]
      have := jsonObject_length a
      omega
    · exact hne

theorem readObjects_jsonObjects (as : List Annotation) (hne : as ≠ []) (fuel : Nat)
    (hf : as.length ≤ fuel) : readObjects fuel (jsonObjects as ++ [']']) = some as := by
  induction as using jsonObjects.induct generalizing fuel with
  | case1 => exact absurd rfl hne
  | case2 a =>
    obtain ⟨fuel, rfl⟩ : ∃ k, fuel = k + 1 := ⟨fuel - 1, by simp at hf; omega⟩
    simp only [jsonObjects, readObjects, readObject_jsonObject]
  | case3 a rest hrest ih =>
    obtain ⟨fuel, rfl⟩ : ∃ k, fuel = k + 1 := ⟨fuel - 1, by simp at hf; omega⟩
    have hr : rest ≠ [] := hrest
    rw [jsonObjects]
    · rw [List.append_assoc, List.append_assoc, readObjects, readObject_jsonObject]
      simp only [List.cons_append, List.nil_append]
      rw [ih hr fuel (by simp at hf; omega)]
      rfl
    · exact hrest

theorem goUnmarshal_goMarshal (as : List Annotation) : goUnmarshal (goMarshal as) = (as, none) := by
  cases as with
  | nil => rfl
  | cons a rest =>
    have h1 : goMarshal (a :: rest) = ⟨'[' :: (jsonObjects (a :: rest) ++ [']'])⟩ := rfl
    have hlen := jsonObjects_length (a :: rest)
    have hlen2 : rest.length + 1 ≤ (jsonObjects (a :: rest)).length := hlen
    rw [h1]
    unfold goUnmarshal
    have hn : ¬ ((⟨'[' :: (jsonObjects (a :: rest) ++ [']'])⟩ : String) = "null"
        ∨ (⟨'[' :: (jsonObjects (a :: rest) ++ [']'])⟩ : String) = "[]") := by
      rintro (h | h)
      · have := congrArg String.data h
        simp at this
      · have := congrArg (fun s => s.data.length) h
        simp at this
        rw [this] at hlen
        simp at hlen
    rw [if_neg hn]
    simp only []
    rw [readObjects_jsonObjects _ (by simp) _ (by simp; omega)]

theorem takeBytes_of_fit (l : List Char) (n : Nat) (h : (l.map Char.utf8Size).sum ≤ n) :
    takeBytes n l = l := by
  induction l generalizing n with
  | nil => rfl
  | cons c l ih =>
    simp only [List.map_cons, List.sum_cons] at h
    rw [takeBytes, if_pos (by omega), ih _ (by omega)]

theorem textColumn_of_fit (s : String) (h : textBytes s ≤ 65535) : textColumn s = s := by
  unfold textColumn
  rw [takeBytes_of_fit _ _ h]

theorem readString_unclosed (l : List Char) (hl : ∀ c ∈ l, Plain c) (acc : List Char) :
    readString l acc = none := by
  induction l generalizing acc with
  | nil => rfl
  | cons c l ih =>
    obtain ⟨h1, h2, h3⟩ := hl c (List.mem_cons_self _ _)
    rw [readString_cons, if_neg h1, if_neg h2, if_neg h3,
      ih (fun d hd => hl d (List.mem_cons_of_mem _ hd))]

theorem b64Encode_zeros (k : Nat) :
    b64Encode (List.replicate (3 * k) 0) = List.replicate (4 * k) 'A' := by
  induction k with
  | zero => rfl
  | succ k ih =>
    have h3 : 3 * (k + 1) = 3 * k + 1 + 1 + 1 := by ring
    have h4 : 4 * (k + 1) = 4 * k + 1 + 1 + 1 + 1 := by ring
    rw [h3, h4]
    simp only [List.replicate_succ]
    rw [b64Encode, ih]
    rfl

theorem takeBytes_ascii_append (pre l : List Char) (p n : Nat) (hp : pre.length = p)
    (h : ∀ c ∈ pre, c.utf8Size = 1) : takeBytes (p + n) (pre ++ l) = pre ++ takeBytes n l := by
  subst hp
  induction pre with
  | nil => simp
  | cons c pre ih =>
    have hc := h c (List.mem_cons_self _ _)
    rw [List.cons_append, takeBytes, hc, if_pos (by simp only [List.length_cons]; omega),
      show (c :: pre).length + n - 1 = pre.length + n by simp only [List.length_cons]; omega,
      ih (fun d hd => h d (List.mem_cons_of_mem _ hd))]
    rfl

theorem goMarshal_single (v : List Byte) :
    goMarshal [⟨"", v⟩]
      = ⟨('[' :: (keyOpen ++ quoteChar :: valueOpen))
          ++ (b64Encode v ++ [quoteChar, closeBrace, ']'])⟩ := by
  show String.mk _ = String.mk _
  congr 1
  simp [jsonObjects, jsonObject, escapeAll]

theorem takeBytes_replicate (n j : Nat) (rest : List Char) :
    takeBytes n (List.replicate (n + j + 1) 'A' ++ rest) = List.replicate n 'A' := by
  induction n with
  | zero =>
    rw [show 0 + j + 1 = j + 1 by omega, List.replicate_succ, List.cons_append, takeBytes,
      if_neg (by decide)]
    rfl
  | succ n ih =>
    rw [show n + 1 + j + 1 = (n + j + 1) + 1 by omega, List.replicate_succ, List.cons_append,
      takeBytes, if_pos (by show 1 ≤ n + 1; omega), show n + 1 - ('A' : Char).utf8Size = n from rfl,
      ih, List.replicate_succ]

/-- The JSON text of `longValue` as the `content` column keeps it: cut inside
the base64 text of the value. -/
theorem textColumn_longValue :
    textColumn (goMarshal longValue)
      = ⟨('[' :: (keyOpen ++ quoteChar :: valueOpen)) ++ List.replicate 65515 'A'⟩ := by
  have hl : longValue = [⟨"", List.replicate (3 * 16384) 0⟩] := rfl
  rw [hl, goMarshal_single, b64Encode_zeros, show 4 * 16384 = 65515 + 20 + 1 by norm_num]
  unfold textColumn
  refine congrArg String.mk ?_
  dsimp only
  rw [show (65535 : Nat) = 20 + 65515 by norm_num,
    takeBytes_ascii_append ('[' :: (keyOpen ++ quoteChar :: valueOpen)) _ 20 _ rfl (by decide),
    takeBytes_replicate]

theorem textBytes_longValue : 65535 < textBytes (goMarshal longValue) := by
  have hl : longValue = [⟨"", List.replicate (3 * 16384) 0⟩] := rfl
  rw [hl, goMarshal_single, b64Encode_zeros]
  unfold textBytes
  dsimp only
  rw [List.map_append, List.map_append, List.sum_append, List.sum_append, List.map_replicate,
    List.sum_replicate, show ('A' : Char).utf8Size = 1 from rfl, smul_eq_mul, mul_one]
  have : 4 * 16384 = 65536 := by norm_num
  omega

theorem goUnmarshal_unclosed (m : Nat) :
    goUnmarshal ⟨('[' :: (keyOpen ++ quoteChar :: valueOpen)) ++ List.replicate m 'A'⟩
      = ([], some Err.Json) := by
  unfold goUnmarshal
  have hn : ¬ ((⟨('[' :: (keyOpen ++ quoteChar :: valueOpen)) ++ List.replicate m 'A'⟩ : String)
        = "null"
      ∨ (⟨('[' :: (keyOpen ++ quoteChar :: valueOpen)) ++ List.replicate m 'A'⟩ : String)
        = "[]") := by
    rintro (h | h)
    · have := congrArg String.data h
      simp at this
    · have := congrArg (fun s => s.data.length) h
      simp [keyOpen] at this
  rw [if_neg hn]
  have hobj : readObject (keyOpen ++ quoteChar :: (valueOpen ++ List.replicate m 'A')) = none := by
    unfold readObject
    rw [expect_append]
    simp only []
    rw [readString_cons, if_pos rfl]
    simp only []
    rw [expect_append]
    simp only []
    rw [readString_unclosed _ (fun c hc => by
      rw [List.eq_of_mem_replicate hc]; decide)]
  show (match readObjects (keyOpen ++ quoteChar :: valueOpen ++ List.replicate m 'A').length
      (keyOpen ++ quoteChar :: valueOpen ++ List.replicate m 'A') with
    | some as => (as, none)
    | none => ([], some Err.Json)) = _
  have hl : ∃ k, (keyOpen ++ quoteChar :: valueOpen ++ List.replicate m 'A').length = k + 1 :=
    ⟨_, by simp [keyOpen]; rfl⟩
  obtain ⟨k, hk⟩ := hl
  rw [hk, readObjects]
  rw [show keyOpen ++ quoteChar :: valueOpen ++ List.replicate m 'A'
      = keyOpen ++ quoteChar :: (valueOpen ++ List.replicate m 'A') by simp, hobj]

/-! ## The annotations of a root span read back -/

/-- After a root span with a new key is ingested into a store with unique,
non-sentinel Span keys and no root span of its trace, `Trace` returns it with
what `json.Unmarshal` makes of the content the text column kept. -/
theorem trace_after_root_collect (L : Lib) (db : DB) (id : SpanID) (as : List Annotation)
    (hT : id.Trace < 2 ^ 64) (hS : id.Span < 2 ^ 64) (hS0 : id.Span ≠ 0) (hP : id.Parent = 0)
    (hkeys : (db.spans.map (·.SpanKey)).Nodup) (hsent : ∀ r ∈ db.spans, r.SpanKey ≠ sentinel)
    (hnew : ∀ r ∈ db.spans, r.SpanKey ≠ ID.String id.Span)
    (hroot : ∀ r ∈ db.spans, r.TraceKey = ID.String id.Trace → r.ParentSpanKey ≠ sentinel)
    (fuel : Nat) (hf : db.spans.length < fuel) :
    ∃ t, MySQLStore.Trace L none noFindFault (MySQLStore.Collect L Faults.none db id as).1
        fuel id.Trace = some (t, (L.Unmarshal (textColumn (L.Marshal as))).2)
      ∧ t.Span.ID = id
      ∧ t.Span.Annotations = (L.Unmarshal (textColumn (L.Marshal as))).1 := by
  have hk := candidate_SpanKey L id as
  have hp : (candidate L id as).ParentSpanKey = sentinel := by
    rw [candidate_ParentSpanKey, hP]; exact String_zero
  have htk := candidate_TraceKey L id as
  obtain ⟨row, g, hsp, _, _, _, ⟨hrk, hrp, hrt', _, _, _, hrc⟩, hg⟩ :=
    insertSpan_new_root db (candidate L id as) (by rwa [hk]) hp
  have hgk : ∀ s, (g s).SpanKey = s.SpanKey ∧ (g s).TraceKey = s.TraceKey
      ∧ (g s).ParentSpanKey = s.ParentSpanKey ∧ (g s).Content = s.Content := by
    intro s
    obtain ⟨pid, hpid⟩ := hg s
    rw [hpid]
    exact ⟨rfl, rfl, rfl, rfl⟩
  have hkS : ID.String id.Span ≠ sentinel := String_ne_sentinel _ hS hS0
  unfold MySQLStore.Collect
  generalize (insertSpan Faults.none db (candidate L id as)).1 = db1 at hsp ⊢
  -- the row of the new span
  have hmem : g row ∈ db1.spans := by
    rw [hsp]
    exact List.mem_map.mpr ⟨row, List.mem_append_right _ (List.mem_singleton.mpr rfl), rfl⟩
  have hlen : db1.spans.length = db.spans.length + 1 := by
    rw [hsp]; simp
  have hkeys1 : (db1.spans.map (·.SpanKey)).Nodup := by
    rw [hsp, List.map_map]
    have : (fun s => s.SpanKey) ∘ g = fun s => s.SpanKey := funext fun s => (hgk s).1
    rw [this, List.map_append, List.map_singleton, hrk, hk]
    refine List.Nodup.append hkeys (List.nodup_singleton _) ?_
    rw [List.disjoint_singleton]
    intro hm
    obtain ⟨r, hr, hkr⟩ := List.mem_map.mp hm
    exact hnew r hr hkr
  have hsent1 : ∀ r ∈ db1.spans, r.SpanKey ≠ sentinel := by
    intro r hr
    rw [hsp] at hr
    obtain ⟨s, hs, rfl⟩ := List.mem_map.mp hr
    rw [(hgk s).1]
    rcases List.mem_append.mp hs with hs | hs
    · exact hsent s hs
    · rw [List.mem_singleton.mp hs, hrk, hk]; exact hkS
  -- the lookup of `Trace` loads it
  have hget : getSpan none db1
      (fun r => decide (r.TraceKey = ID.String id.Trace ∧ r.ParentSpanKey = sentinel))
      SpanTable.zero = (g row, none) := by
    unfold getSpan
    have hfirst : (db.spans.map g).find?
        (fun r => decide (r.TraceKey = ID.String id.Trace ∧ r.ParentSpanKey = sentinel)) = none := by
      rw [List.find?_eq_none]
      intro r hr
      obtain ⟨s, hs, rfl⟩ := List.mem_map.mp hr
      rw [decide_eq_true_eq, (hgk s).2.1, (hgk s).2.2.1]
      exact fun h => hroot s hs h.1 h.2
    have hcond : decide ((g row).TraceKey = ID.String id.Trace ∧ (g row).ParentSpanKey = sentinel)
        = true := by
      rw [decide_eq_true_eq, (hgk row).2.1, (hgk row).2.2.1, hrt', hrp, htk]
      exact ⟨rfl, hp⟩
    simp only [hsp, List.map_append, List.find?_append, hfirst, List.map_singleton, List.find?,
      hcond, Option.none_or]
  have hsome := returns_from_root L db1 hkeys1 hsent1 (g row) hmem
    (by rw [(hgk row).2.2.1, hrp]; exact hp) fuel (by omega)
  obtain ⟨subs, hsubs⟩ := Option.isSome_iff_exists.mp hsome
  have hcont : (g row).Content = textColumn (L.Marshal as) := by
    rw [(hgk row).2.2.2, hrc, candidate_Content]
  refine ⟨.mk ⟨spanIdOf (g row), (L.Unmarshal (g row).Content).1⟩ subs.1, ?_, ?_, ?_⟩
  · unfold MySQLStore.Trace
    simp only [hget, hsubs, hcont]
  · show spanIdOf (g row) = id
    apply spanIdOf_eq _ _ hT hS (by rw [hP]; norm_num)
    · rw [(hgk row).2.1, hrt', htk]
    · rw [(hgk row).1, hrk, hk]
    · rw [(hgk row).2.2.1, hrp, candidate_ParentSpanKey]
  · show (L.Unmarshal (g row).Content).1 = (L.Unmarshal (textColumn (L.Marshal as))).1
    rw [hcont]

/-- C5 (amended): for every root SpanID (Parent 0, Span non-zero) and every
annotation list (keys are Unicode texts, values any bytes; repeated keys and
the empty list included) whose JSON text fits the `content` column (65535
bytes), if the Span keys of the store are unique and none is the sentinel, and
the store holds no span with that Span key and no root span under that Trace
key, then after `Collect(id, as...)` the call `Trace(id.Trace)` returns, for
every depth bound above the number of spans stored before, with a nil error, a
node whose `Span.ID` is `id` and whose `Span.Annotations` is `as`. -/
theorem root_annotations_round_trip (db : DB) (id : SpanID) (as : List Annotation)
    (hT : id.Trace < 2 ^ 64) (hS : id.Span < 2 ^ 64) (hS0 : id.Span ≠ 0) (hP : id.Parent = 0)
    (hkeys : (db.spans.map (·.SpanKey)).Nodup) (hsent : ∀ r ∈ db.spans, r.SpanKey ≠ sentinel)
    (hnew : ∀ r ∈ db.spans, r.SpanKey ≠ ID.String id.Span)
    (hroot : ∀ r ∈ db.spans, r.TraceKey = ID.String id.Trace → r.ParentSpanKey ≠ sentinel)
    (hfit : textBytes (goMarshal as) ≤ 65535) (fuel : Nat) (hf : db.spans.length < fuel) :
    ∃ t, MySQLStore.Trace goLib none noFindFault
        (MySQLStore.Collect goLib Faults.none db id as).1 fuel id.Trace = some (t, none)
      ∧ t.Span.ID = id ∧ t.Span.Annotations = as := by
  obtain ⟨t, h1, h2, h3⟩ :=
    trace_after_root_collect goLib db id as hT hS hS0 hP hkeys hsent hnew hroot fuel hf
  have hback : goLib.Unmarshal (textColumn (goLib.Marshal as)) = (as, none) := by
    show goUnmarshal (textColumn (goMarshal as)) = (as, none)
    rw [textColumn_of_fit _ hfit, goUnmarshal_goMarshal]
  rw [hback] at h1 h3
  exact ⟨t, h1, h2, h3⟩

set_option maxRecDepth 1000000 in
/-- C5 (witness): into a store that holds the root span 5 of trace 2, the root
span 1 of trace 1 is ingested with the two equal annotations of the test;
`Trace(1)` returns it with both annotations. -/
theorem root_annotations_round_trip_witness :
    (∀ r ∈ (collectAll goLib emptyDB [(⟨2, 5, 0⟩, oneSecond)]).spans, r.SpanKey ≠ ID.String 1)
      ∧ textBytes (goMarshal twoKV) ≤ 65535
      ∧ ∃ t, MySQLStore.Trace goLib none noFindFault
          (MySQLStore.Collect goLib Faults.none
            (collectAll goLib emptyDB [(⟨2, 5, 0⟩, oneSecond)]) ⟨1, 1, 0⟩ twoKV).1 2 1
            = some (t, none)
        ∧ t.Span.ID = ⟨1, 1, 0⟩ ∧ t.Span.Annotations = twoKV :=
  ⟨by decide, by decide,
    root_annotations_round_trip (collectAll goLib emptyDB [(⟨2, 5, 0⟩, oneSecond)])
      ⟨1, 1, 0⟩ twoKV (by norm_num) (by norm_num) (by decide) rfl (by decide) (by decide)
      (by decide) (by decide) (by decide) 2 (by decide)⟩

/-- The `content` column cuts a longer JSON text: the root span 1 of trace 1
ingested into the empty store with `longValue`, whose JSON text has more than
65535 bytes, is read back by `Trace(1)` with the error of `json.Unmarshal` and no
annotations (a server that rejects the text instead fails the insert, and the
span is not stored at all). -/
theorem annotations_cut_to_column :
    65535 < textBytes (goMarshal longValue)
      ∧ ∃ t, MySQLStore.Trace goLib none noFindFault
          (MySQLStore.Collect goLib Faults.none emptyDB ⟨1, 1, 0⟩ longValue).1 1 1
            = some (t, some Err.Json)
        ∧ t.Span.Annotations = [] := by
  refine ⟨textBytes_longValue, ?_⟩
  obtain ⟨t, h1, _, h3⟩ := trace_after_root_collect goLib emptyDB ⟨1, 1, 0⟩ longValue
    (by norm_num) (by norm_num) (by decide) rfl (by decide) (by decide) (by decide) (by decide)
    1 (by decide)
  have e1 : goLib.Unmarshal = goUnmarshal := rfl
  have e2 : goLib.Marshal = goMarshal := rfl
  have hback : goLib.Unmarshal (textColumn (goLib.Marshal longValue)) = ([], some Err.Json) := by
    rw [e1, e2, textColumn_longValue, goUnmarshal_unclosed]
  rw [hback] at h1 h3
  exact ⟨t, h1, h3⟩

end Appdash
